import Mathlib

/-!
Verification development for the rheas cookies subsystem
(`src/cookie.ts`, `src/cookiesManager.ts`).

The TypeScript classes are shallowly embedded as Lean definitions:

* JS strings become `String` / `List Char`; the JS builtins
  `encodeURIComponent` / `decodeURIComponent` / `String.prototype.split` /
  `String.prototype.trimLeft` are embedded following the ECMAScript
  specification (percent-encoding of UTF-8 bytes, with `URIError` on
  malformed input modelled as `Option`/`Except`).
* The mutable `Cookie` object becomes a `Cookie` structure; mutating
  methods return the updated structure, and methods that can throw
  return the updated structure together with an optional exception
  (`setExpire`) or an `Except` (`toString`, parsing).
* The external date collaborators (`dayjs`, `Redate.responseFormat`,
  which live outside this repository) are modelled from the spec; each
  such definition carries a doc comment saying so.
* The two `KeyValue<ICookie>` dictionaries of `CookiesManager` are
  plain `{}` objects, so they are modelled with full JS object
  semantics: own entries plus a prototype state, with reads walking
  the prototype chain (`Object.prototype` members, the `__proto__`
  accessor), assignment to `"__proto__"` replacing the prototype, and
  `delete` removing own properties only.
-/

/-! ## JavaScript character classes and string primitives -/

/-- ECMAScript WhiteSpace / LineTerminator, as trimmed by
`String.prototype.trimLeft` (used on cookie names in `parseCookie`). -/
def isJsWhitespace (c : Char) : Bool :=
  c.toNat = 9 || c.toNat = 10 || c.toNat = 11 || c.toNat = 12 || c.toNat = 13 ||
  c.toNat = 32 || c.toNat = 160 || c.toNat = 0x1680 ||
  (0x2000 ≤ c.toNat && c.toNat ≤ 0x200A) ||
  c.toNat = 0x2028 || c.toNat = 0x2029 || c.toNat = 0x202F || c.toNat = 0x205F ||
  c.toNat = 0x3000 || c.toNat = 0xFEFF

/-- Embedding of `String.prototype.trimLeft` on char lists. -/
def jsTrimStart (l : List Char) : List Char := l.dropWhile isJsWhitespace

/-- Embedding of `String.prototype.split(sep)` for a single-character
separator: keeps empty pieces, and splitting the empty string yields
one empty piece, exactly as in JS. -/
def jsSplit (sep : Char) : List Char → List (List Char)
  | [] => [[]]
  | c :: rest =>
    if c = sep then [] :: jsSplit sep rest
    else
      match jsSplit sep rest with
      | [] => [[c]]
      | piece :: more => (c :: piece) :: more

/-! ## Percent-encoding (`encodeURIComponent`), from the ECMAScript spec -/

/-- Characters that `encodeURIComponent` leaves unescaped:
ASCII letters, digits, and `- _ . ! ~ * ( )` and the apostrophe. -/
def isUnreservedURI (c : Char) : Bool :=
  (65 ≤ c.toNat && c.toNat ≤ 90) || (97 ≤ c.toNat && c.toNat ≤ 122) ||
  (48 ≤ c.toNat && c.toNat ≤ 57) ||
  c.toNat = 45 || c.toNat = 95 || c.toNat = 46 || c.toNat = 33 || c.toNat = 126 ||
  c.toNat = 42 || c.toNat = 39 || c.toNat = 40 || c.toNat = 41

/-- UTF-8 bytes of a scalar value. -/
def utf8Bytes (v : Nat) : List Nat :=
  if v < 0x80 then [v]
  else if v < 0x800 then [0xC0 + v / 64, 0x80 + v % 64]
  else if v < 0x10000 then [0xE0 + v / 4096, 0x80 + v / 64 % 64, 0x80 + v % 64]
  else [0xF0 + v / 262144, 0x80 + v / 4096 % 64, 0x80 + v / 64 % 64, 0x80 + v % 64]

/-- Uppercase hex digit, as produced by the ECMAScript Encode algorithm. -/
def hexDigitChar (n : Nat) : Char :=
  if n < 10 then Char.ofNat (48 + n) else Char.ofNat (55 + n)

/-- One `%HH` escape for a byte. -/
def percentByte (b : Nat) : List Char :=
  ['%', hexDigitChar (b / 16), hexDigitChar (b % 16)]

/-- `encodeURIComponent` on a single character. -/
def encChar (c : Char) : List Char :=
  if isUnreservedURI c then [c] else ((utf8Bytes c.toNat).map percentByte).flatten

/-- `encodeURIComponent` on a char list. -/
def encodeL : List Char → List Char
  | [] => []
  | c :: rest => encChar c ++ encodeL rest

/-- Embedding of the JS builtin `encodeURIComponent`. -/
def encodeURIComponent (s : String) : String := String.mk (encodeL s.data)

/-! ## Percent-decoding (`decodeURIComponent`), from the ECMAScript spec

`decodeURIComponent` throws `URIError` on malformed input; failure is
modelled as `none`.  Decoding happens in two stages: first every `%HH`
escape is turned into a byte token, then byte tokens are grouped into
UTF-8 sequences (rejecting stray continuation bytes, overlong forms,
surrogates and values above `0x10FFFF`, as modern engines do). -/

/-- Value of one hex digit (JS accepts both cases). -/
def hexVal (c : Char) : Option Nat :=
  if 48 ≤ c.toNat && c.toNat ≤ 57 then some (c.toNat - 48)
  else if 65 ≤ c.toNat && c.toNat ≤ 70 then some (c.toNat - 55)
  else if 97 ≤ c.toNat && c.toNat ≤ 102 then some (c.toNat - 87)
  else none

/-- Stage 1: replace each `%HH` escape by a byte token; a `%` not
followed by two hex digits is a `URIError`. -/
def toTokens : List Char → Option (List (Sum Char Nat))
  | [] => some []
  | c :: rest =>
    if c = '%' then
      match rest with
      | h1 :: h2 :: rest2 =>
        match hexVal h1, hexVal h2 with
        | some a, some b => (toTokens rest2).map (fun ts => Sum.inr (16 * a + b) :: ts)
        | _, _ => none
      | _ => none
    else (toTokens rest).map (fun ts => Sum.inl c :: ts)

/-- Stage 2 state machine: group byte tokens into UTF-8 encoded
scalar values.  The state is `none` outside a multibyte sequence, or
`some (k, acc, mn)` with `k` continuation bytes still expected, `acc`
the accumulated value and `mn` the minimal scalar for the sequence
length (rejecting overlong forms); on completion surrogates and values
above `0x10FFFF` are rejected, as the ECMAScript Decode algorithm
requires a valid UTF-8 encoding of a Unicode code point. -/
def groupAux : Option (Nat × Nat × Nat) → List (Sum Char Nat) → Option (List Char)
  | none, [] => some []
  | some _, [] => none
  | none, Sum.inl c :: ts => (groupAux none ts).map (fun l => c :: l)
  | none, Sum.inr b :: ts =>
    if b < 0x80 then (groupAux none ts).map (fun l => Char.ofNat b :: l)
    else if b < 0xC0 then none
    else if b < 0xE0 then groupAux (some (1, b - 0xC0, 0x80)) ts
    else if b < 0xF0 then groupAux (some (2, b - 0xE0, 0x800)) ts
    else if b < 0xF8 then groupAux (some (3, b - 0xF0, 0x10000)) ts
    else none
  | some _, Sum.inl _ :: _ => none
  | some (0, _, _), Sum.inr _ :: _ => none
  | some (1, acc, mn), Sum.inr b :: ts =>
    if 0x80 ≤ b ∧ b < 0xC0 then
      if mn ≤ acc * 64 + (b - 0x80) ∧
          ¬(0xD800 ≤ acc * 64 + (b - 0x80) ∧ acc * 64 + (b - 0x80) ≤ 0xDFFF) ∧
          acc * 64 + (b - 0x80) ≤ 0x10FFFF then
        (groupAux none ts).map (fun l => Char.ofNat (acc * 64 + (b - 0x80)) :: l)
      else none
    else none
  | some (k + 2, acc, mn), Sum.inr b :: ts =>
    if 0x80 ≤ b ∧ b < 0xC0 then groupAux (some (k + 1, acc * 64 + (b - 0x80), mn)) ts
    else none

/-- Stage 2 entry point: group a whole token list starting outside any
multibyte sequence. -/
def tokensToString (ts : List (Sum Char Nat)) : Option (List Char) := groupAux none ts

/-- Embedding of the JS builtin `decodeURIComponent` on char lists;
`none` models a thrown `URIError`. -/
def decodeL (l : List Char) : Option (List Char) := (toTokens l).bind tokensToString

/-- Embedding of the JS builtin `decodeURIComponent`. -/
def decodeURIComponent (s : String) : Option String := (decodeL s.data).map String.mk

/-! ## Decimal rendering of numbers (JS number-to-string on integers) -/

/-- Accumulator-style decimal digits of a natural number. -/
def natToCharsAux : Nat → Nat → List Char → List Char
  | 0, _, acc => acc
  | fuel + 1, n, acc =>
    if n < 10 then Char.ofNat (48 + n % 10) :: acc
    else natToCharsAux fuel (n / 10) (Char.ofNat (48 + n % 10) :: acc)

/-- Decimal digit string of a natural number, as JS prints integers. -/
def natToChars (n : Nat) : List Char := natToCharsAux (n + 1) n []

/-- Decimal rendering of an integer, as JS prints integral numbers. -/
def intToChars (i : Int) : List Char :=
  if i < 0 then '-' :: natToChars i.natAbs else natToChars i.toNat

/-- String form of `intToChars`. -/
def intToString (i : Int) : String := String.mk (intToChars i)

/-! ## Date model (external collaborators, modelled from the spec) -/

/-- Modelled from the spec: `dayjs(timestamp).isValid()` for the external
dayjs collaborator (not part of this repository).  A JS number is
modelled as `Option Int`, `none` standing for `NaN`; a timestamp is a
valid date/time iff it is not `NaN` and lies within the JS `Date`
representable range of ±8.64e15 milliseconds. -/
def dayjsIsValid : Option Int → Bool
  | none => false
  | some n => n.natAbs ≤ 8640000000000000

/-- Modelled from the spec: `expire()` "sets the expiry time thirteen
years back from the current time"; the external dayjs year arithmetic is
modelled as thirteen 365-day years of milliseconds. -/
def subtractThirteenYears (now : Int) : Int := now - 409968000000

/-- Days-to-civil-date conversion (proleptic Gregorian calendar),
used to render an epoch-millisecond timestamp as an HTTP-date. -/
def civilFromDays (z0 : Int) : Int × Int × Int :=
  let z := z0 + 719468
  let era := Int.ediv z 146097
  let doe := z - era * 146097
  let yoe := Int.ediv (doe - Int.ediv doe 1460 + Int.ediv doe 36524 - Int.ediv doe 146096) 365
  let y := yoe + era * 400
  let doy := doe - (365 * yoe + Int.ediv yoe 4 - Int.ediv yoe 100)
  let mp := Int.ediv (5 * doy + 2) 153
  let d := doy - Int.ediv (153 * mp + 2) 5 + 1
  let m := if mp < 10 then mp + 3 else mp - 9
  (if m ≤ 2 then y + 1 else y, m, d)

/-- Three-letter month names of the HTTP-date format. -/
def monthNames : List String :=
  ["Jan", "Feb", "Mar", "Apr", "May", "Jun", "Jul", "Aug", "Sep", "Oct", "Nov", "Dec"]

/-- Three-letter weekday names of the HTTP-date format. -/
def weekdayNames : List String := ["Sun", "Mon", "Tue", "Wed", "Thu", "Fri", "Sat"]

/-- Two-digit zero-padded decimal field of an HTTP-date. -/
def pad2 (n : Nat) : List Char := if n < 10 then '0' :: natToChars n else natToChars n

/-- Modelled from the spec: `Redate.responseFormat` from the external
`@rheas/support` package (not part of this repository) renders an
epoch-millisecond timestamp in the RFC 7231 HTTP-date format used by
`Set-Cookie` expires attributes, e.g. `Wed, 21 Oct 2015 07:28:00 GMT`. -/
def responseFormat (t : Int) : String :=
  let days := Int.ediv t 86400000
  let ms := (Int.emod t 86400000).toNat
  let ymd := civilFromDays days
  let wd := (Int.emod (days + 4) 7).toNat
  String.mk
    ((weekdayNames.getD wd "Sun").data ++ (", ").data ++
     pad2 (ymd.2.2.toNat) ++ (" ").data ++
     ((monthNames.getD (ymd.2.1 - 1).toNat "Jan").data) ++ (" ").data ++
     intToChars ymd.1 ++ (" ").data ++
     pad2 (ms / 3600000) ++ (":").data ++
     pad2 (ms % 3600000 / 60000) ++ (":").data ++
     pad2 (ms % 60000 / 1000) ++ (" GMT").data)

/-! ## The Cookie value object (`src/cookie.ts`) -/

/-- Modelled from the spec: the `SameSite` enum from the external
`@rheas/contracts` package is a closed three-state string enum whose
values serialize in lowercase. -/
inductive SameSite where
  | NONE
  | LAX
  | STRICT
deriving DecidableEq

/-- String value of a `SameSite` member (`valueOf()` in the source). -/
def SameSite.valueOf : SameSite → String
  | SameSite.NONE => "none"
  | SameSite.LAX => "lax"
  | SameSite.STRICT => "strict"

/-- Exceptions the embedded code can throw: `URIError` from the JS
decoder, `InvalidArgumentException` from `setExpire`. -/
inductive JsException where
  | uriError
  | invalidArgument (msg : String)
deriving DecidableEq

deriving instance DecidableEq for Except

/-- The `Cookie` class fields, in declaration order of `src/cookie.ts`. -/
structure Cookie where
  _name : String
  _value : String
  _expiresAt : Int
  _path : String
  _domain : String
  _secure : Bool
  _httpOnly : Bool
  _raw : Bool
  _sameSite : SameSite
deriving DecidableEq

/-- `new Cookie(name, value)` with every other constructor argument at
its default (`expiresAt = 0`, `path = '/'`, `domain = ''`,
`secure = false`, `httpOnly = false`, `raw = true`, `sameSite = NONE`). -/
def Cookie.mkDefault (name value : String) : Cookie :=
  ⟨name, value, 0, "/", "", false, false, true, SameSite.NONE⟩

/-- `Cookie.getName`. -/
def Cookie.getName (c : Cookie) : String := c._name

/-- `Cookie.getValue`. -/
def Cookie.getValue (c : Cookie) : String := c._value

/-- `Cookie.getExpiry`. -/
def Cookie.getExpiry (c : Cookie) : Int := c._expiresAt

/-- `Cookie.setValue`. -/
def Cookie.setValue (c : Cookie) (value : String) : Cookie := { c with _value := value }

/-- `Cookie.setPath`. -/
def Cookie.setPath (c : Cookie) (path : String) : Cookie := { c with _path := path }

/-- `Cookie.setDomain`. -/
def Cookie.setDomain (c : Cookie) (domain : String) : Cookie := { c with _domain := domain }

/-- `Cookie.setExpire(timestamp)`: throws `InvalidArgumentException`
when the timestamp is non-zero and not a valid date/time, otherwise
stores it.  The JS number argument is `Option Int` (`none` = `NaN`);
the result pairs the object state after the call with the exception, if
one was thrown (the field assignment comes after the validation, so on
a throw the state is unchanged). -/
def Cookie.setExpire (c : Cookie) (timestamp : Option Int) : Cookie × Option JsException :=
  if timestamp ≠ some 0 ∧ dayjsIsValid timestamp = false then
    (c, some (JsException.invalidArgument "An invalid expiry time is given"))
  else
    match timestamp with
    | some n => ({ c with _expiresAt := n }, none)
    | none => (c, none)

/-- `Cookie.getMaxAge`: 0 for a session cookie, otherwise the seconds
from `now` until expiry, clamped below at 0.  The external
`dayjs.diff(-, 'second')` is modelled from the spec as floor seconds
(on the positive branch floor and truncation agree). -/
def Cookie.getMaxAge (c : Cookie) (now : Int) : Int :=
  if c._expiresAt = 0 then 0
  else
    let secondsFromNow := Int.ediv (c._expiresAt - now) 1000
    if secondsFromNow > 0 then secondsFromNow else 0

/-- `Cookie.hasExpired`. -/
def Cookie.hasExpired (c : Cookie) (now : Int) : Bool := c.getMaxAge now = 0

/-- `Cookie.rawIfNeededOf`. -/
def Cookie.rawIfNeededOf (c : Cookie) (value : String) : String :=
  if c._raw then value else encodeURIComponent value

/-- `Cookie.expire()`: sets the expiry thirteen years before `now`
through `setExpire` (the current time is an explicit parameter in the
embedding). -/
def Cookie.expire (c : Cookie) (now : Int) : Cookie × Option JsException :=
  c.setExpire (some (subtractThirteenYears now))

/-- The trailing attribute section of `Cookie.toString`: path, domain,
secure, httponly and samesite attributes, each emitted only when its
field is not at the default-omit value, in source order. -/
def Cookie.attrsTail (c : Cookie) : String :=
  (if c._path ≠ "" then "; path=" ++ c._path else "") ++
  (if c._domain ≠ "" then "; domain=" ++ c._domain else "") ++
  (if c._secure then "; secure" else "") ++
  (if c._httpOnly then "; httponly" else "") ++
  (if c._sameSite ≠ SameSite.NONE then "; samesite=" ++ c._sameSite.valueOf else "")

/-- `Cookie.toString()` at an explicit current time `now`.  Returns the
`Set-Cookie` header value together with the object state after the
call, since the empty-value branch mutates the cookie through
`expire()`; a thrown exception is an `Except.error`. -/
def Cookie.toStringAt (c : Cookie) (now : Int) : Except JsException (String × Cookie) :=
  let start := c.rawIfNeededOf c._name ++ "="
  if c._value = "" then
    match c.expire now with
    | (_, some e) => Except.error e
    | (c2, none) =>
      Except.ok
        (start ++ "; expires=" ++ responseFormat c2._expiresAt ++ "; Max-Age=0" ++ c2.attrsTail,
         c2)
  else
    Except.ok
      (start ++ c.rawIfNeededOf c._value ++
        (if c._expiresAt ≠ 0 then "; expires=" ++ responseFormat c._expiresAt else "") ++
        "; Max-Age=" ++ intToString (c.getMaxAge now) ++ c.attrsTail,
       c)

/-! ## The CookiesManager (`src/cookiesManager.ts`)

The two `KeyValue<ICookie>` members are plain `{}` objects, so
property access on them follows the full JS object protocol: a read
falls through the prototype chain (a fresh object inherits the
`Object.prototype` members and the `__proto__` accessor), an
assignment to the key `"__proto__"` invokes the inherited setter and
replaces the object's prototype instead of creating an entry, and
`delete` removes own properties only. -/

/-- The prototype state of one of the manager's dictionaries: a fresh
`{}` starts at `Object.prototype`; assigning a cookie to the key
`"__proto__"` replaces the prototype by that cookie. -/
inductive JsProto where
  | objectProto
  | cookieProto (c : Cookie)
deriving DecidableEq

/-- Values a property read on a dictionary can produce at runtime: a
stored cookie, a field value read through a cookie that became the
prototype, an inherited function, the `Object.prototype` object itself
(read through the `__proto__` getter), or `undefined`. -/
inductive JsValue where
  | cookieVal (c : Cookie)
  | strVal (s : String)
  | intVal (n : Int)
  | boolVal (b : Bool)
  | builtinFun (name : String)
  | objectProtoObj
  | undefinedVal
deriving DecidableEq

/-- JS truthiness of the values above: objects and functions are
truthy; the empty string, zero, `false` and `undefined` are falsy. -/
def JsValue.truthy : JsValue → Bool
  | JsValue.cookieVal _ => true
  | JsValue.strVal s => s ≠ ""
  | JsValue.intVal n => n ≠ 0
  | JsValue.boolVal b => b
  | JsValue.builtinFun _ => true
  | JsValue.objectProtoObj => true
  | JsValue.undefinedVal => false

/-- The standard members of `Object.prototype` visible on every plain
object (including the Annex B accessor-definition helpers). -/
def objectProtoMembers : List String :=
  ["constructor", "hasOwnProperty", "isPrototypeOf", "propertyIsEnumerable",
   "toLocaleString", "toString", "valueOf",
   "__defineGetter__", "__defineSetter__", "__lookupGetter__", "__lookupSetter__"]

/-- The members of `Cookie.prototype`: the methods of the compiled
`Cookie` class (a TS `private` method is still present at runtime)
plus `constructor`. -/
def cookiePrototypeMembers : List String :=
  ["constructor", "setValue", "setExpire", "expire", "forever", "setPath", "setDomain",
   "setSecure", "setHttpOnly", "setRaw", "setSameSite", "getName", "getValue", "getExpiry",
   "getMaxAge", "hasExpired", "getPath", "getDomain", "isSecure", "isHttpOnly", "isRaw",
   "getSameSite", "toString", "rawIfNeededOf"]

/-- Own-entry lookup in a dictionary's own-property list. -/
def entriesGet (l : List (String × Cookie)) (k : String) : Option Cookie :=
  (l.find? (fun p => p.1 == k)).map (fun p => p.2)

/-- Own-entry insert-or-overwrite. -/
def entriesSet (l : List (String × Cookie)) (k : String) (v : Cookie) :
    List (String × Cookie) :=
  (k, v) :: l.filter (fun p => !(p.1 == k))

/-- Own-entry removal, the effect of `delete` on an own property. -/
def entriesDelete (l : List (String × Cookie)) (k : String) : List (String × Cookie) :=
  l.filter (fun p => !(p.1 == k))

/-- One of the manager's dictionaries: its own entries together with
its prototype state. -/
structure JsDict where
  entries : List (String × Cookie)
  proto : JsProto
deriving DecidableEq

/-- A fresh `{}` dictionary. -/
def JsDict.empty : JsDict := ⟨[], JsProto.objectProto⟩

/-- Reading a property through a cookie that has become the
dictionary's prototype: the cookie instance's own data fields first,
then the `Cookie.prototype` methods, then `Object.prototype`.  None of
these is ever a `Cookie` instance. -/
def cookieChainRead (c : Cookie) (k : String) : JsValue :=
  if k = "_name" then JsValue.strVal c._name
  else if k = "_value" then JsValue.strVal c._value
  else if k = "_expiresAt" then JsValue.intVal c._expiresAt
  else if k = "_path" then JsValue.strVal c._path
  else if k = "_domain" then JsValue.strVal c._domain
  else if k = "_secure" then JsValue.boolVal c._secure
  else if k = "_httpOnly" then JsValue.boolVal c._httpOnly
  else if k = "_raw" then JsValue.boolVal c._raw
  else if k = "_sameSite" then JsValue.strVal c._sameSite.valueOf
  else if k ∈ cookiePrototypeMembers then JsValue.builtinFun k
  else if k ∈ objectProtoMembers then JsValue.builtinFun k
  else JsValue.undefinedVal

/-- Property read `d[k]`: own entry first; otherwise `"__proto__"`
reads the current prototype through the inherited accessor, and any
other key walks the prototype chain. -/
def JsDict.read (d : JsDict) (k : String) : JsValue :=
  match entriesGet d.entries k with
  | some c => JsValue.cookieVal c
  | none =>
    if k = "__proto__" then
      match d.proto with
      | JsProto.objectProto => JsValue.objectProtoObj
      | JsProto.cookieProto c => JsValue.cookieVal c
    else
      match d.proto with
      | JsProto.objectProto =>
        if k ∈ objectProtoMembers then JsValue.builtinFun k else JsValue.undefinedVal
      | JsProto.cookieProto c => cookieChainRead c k

/-- Property assignment `d[k] = v`: assigning to `"__proto__"` invokes
the inherited accessor's setter and replaces the prototype (the
assigned value here is always an object, a `Cookie`); any other key
stores an own entry. -/
def JsDict.assign (d : JsDict) (k : String) (v : Cookie) : JsDict :=
  if k = "__proto__" then { d with proto := JsProto.cookieProto v }
  else { d with entries := entriesSet d.entries k v }

/-- `delete d[k]`: removes the own entry only; an inherited or
prototype-level binding stays reachable. -/
def JsDict.del (d : JsDict) (k : String) : JsDict :=
  { d with entries := entriesDelete d.entries k }

/-- The `CookiesManager` state: the `_incoming` cache and the outgoing
`_queue`, both plain `{}` objects keyed by cookie name. -/
structure CookiesManager where
  _incoming : JsDict
  _queue : JsDict
deriving DecidableEq

/-- `CookiesManager.parseCookie` on a char-list fragment: split on `=`,
shift off the name part (left-trimmed, then percent-decoded), return
null for an empty decoded name, otherwise shift off the value part,
decode it, and build a default cookie. -/
def parseCookieL (frag : List Char) : Except JsException (Option Cookie) :=
  let keyValue := jsSplit '=' frag
  match decodeL (jsTrimStart ((keyValue.headD []))) with
  | none => Except.error JsException.uriError
  | some name =>
    if name = [] then Except.ok none
    else
      match decodeL ((keyValue[1]?).getD []) with
      | none => Except.error JsException.uriError
      | some value => Except.ok (some (Cookie.mkDefault (String.mk name) (String.mk value)))

/-- `CookiesManager.parseCookie`. -/
def CookiesManager.parseCookie (cookie : String) : Except JsException (Option Cookie) :=
  parseCookieL cookie.data

/-- `CookiesManager.parseIncomingCookies`: split the header on `;`,
parse each fragment, drop null results, store the rest into
`_incoming` by name (a JS property assignment).  A `URIError` thrown
by the decoder propagates. -/
def CookiesManager.parseIncomingCookies (m : CookiesManager) (cookieHeader : String) :
    Except JsException CookiesManager :=
  (jsSplit ';' cookieHeader.data).foldlM
    (fun st frag =>
      match parseCookieL frag with
      | Except.error e => Except.error e
      | Except.ok none => Except.ok st
      | Except.ok (some c) =>
        Except.ok { st with _incoming := st._incoming.assign c.getName c })
    m

/-- The `CookiesManager` constructor: starts from two fresh `{}`
dictionaries and eagerly parses the request's `Cookie` header. -/
def CookiesManager.construct (cookieHeader : String) : Except JsException CookiesManager :=
  CookiesManager.parseIncomingCookies ⟨JsDict.empty, JsDict.empty⟩ cookieHeader

/-- `CookiesManager.hasQueued`: reads `this._queue[name]` through the
object protocol and tests `instanceof Cookie` — only an actual cookie
value passes. -/
def CookiesManager.hasQueued (m : CookiesManager) (name : String) : Bool :=
  match m._queue.read name with
  | JsValue.cookieVal _ => true
  | _ => false

/-- `CookiesManager.queue`: `this._queue[cookie.getName()] = cookie`. -/
def CookiesManager.queue (m : CookiesManager) (cookie : Cookie) : CookiesManager :=
  { m with _queue := m._queue.assign cookie.getName cookie }

/-- `CookiesManager.unqueue`: `delete this._queue[name]`. -/
def CookiesManager.unqueue (m : CookiesManager) (name : String) : CookiesManager :=
  { m with _queue := m._queue.del name }

/-- `CookiesManager.incoming`: `this._incoming[name] || null`, where
`null` is modelled as `none` and any truthy runtime value — cookie or
inherited member — is passed through. -/
def CookiesManager.incoming (m : CookiesManager) (name : String) : Option JsValue :=
  let v := m._incoming.read name
  if v.truthy then some v else none

/-- `CookiesManager.queued`: `this._queue[name] || null`. -/
def CookiesManager.queued (m : CookiesManager) (name : String) : Option JsValue :=
  let v := m._queue.read name
  if v.truthy then some v else none

/-- `CookiesManager.incomingCookies`. -/
def CookiesManager.incomingCookies (m : CookiesManager) : JsDict := m._incoming

/-- `CookiesManager.queuedCookies`. -/
def CookiesManager.queuedCookies (m : CookiesManager) : JsDict := m._queue

/-- `CookiesManager.get`: the queued value first, else the incoming
value, else the default. -/
def CookiesManager.get (m : CookiesManager) (key : String) (defaultValue : Option JsValue) :
    Option JsValue :=
  match m.queued key with
  | some v => some v
  | none =>
    match m.incoming key with
    | some v => some v
    | none => defaultValue

/-! ## Auxiliary definitions used only in claim statements -/

/-- The part of a fragment before the first `=` (spec wording for the
name part of `parseCookie`). -/
def firstSplitName (l : List Char) : List Char := l.takeWhile (fun c => !(c == '='))

/-- The segment of a list strictly between the first and the second
occurrence of `sep` (up to the end when there is no second occurrence,
empty when there is no occurrence at all). -/
def betweenAux (sep : Char) (l : List Char) : List Char :=
  match l.dropWhile (fun c => !(c == sep)) with
  | [] => []
  | _ :: t => t.takeWhile (fun c => !(c == sep))

/-- The part of a fragment strictly between the first and the second
`=`, or everything after the first `=` when there is no second one, or
the empty string when there is no `=` at all. -/
def betweenFirstAndSecondEq (l : List Char) : List Char := betweenAux '=' l

/-- `parseCookie` as worded by the (amended) spec sentence: name is the
piece before the first `=`, value the piece between the first and
second `=`; trim the name's leading whitespace, percent-decode both,
return null on an empty decoded name. -/
def parseCookieSpecL (frag : List Char) : Except JsException (Option Cookie) :=
  match decodeL (jsTrimStart (firstSplitName frag)) with
  | none => Except.error JsException.uriError
  | some name =>
    if name = [] then Except.ok none
    else
      match decodeL (betweenFirstAndSecondEq frag) with
      | none => Except.error JsException.uriError
      | some value => Except.ok (some (Cookie.mkDefault (String.mk name) (String.mk value)))

/-- A header fragment whose name and value pieces are both well-formed
percent-encodings, so that `parseCookie` cannot throw on it. -/
def fragmentDecodes (frag : List Char) : Bool :=
  let keyValue := jsSplit '=' frag
  (decodeL (jsTrimStart (keyValue.headD []))).isSome &&
  (decodeL ((keyValue[1]?).getD [])).isSome

/-- Boolean prefix test on char lists (avoiding the library predicate
so the development stays self-contained and executable). -/
def isPre : List Char → List Char → Bool
  | [], _ => true
  | _ :: _, [] => false
  | a :: p, b :: l => a == b && isPre p l

/-- Number of positions of `s` at which `pat` occurs (occurrences may
overlap). -/
def countOcc (pat : List Char) : List Char → Nat
  | [] => if pat = [] then 1 else 0
  | c :: rest => (if isPre pat (c :: rest) then 1 else 0) + countOcc pat rest

/-- No semicolon occurs in the char list. -/
def noSemiL (l : List Char) : Prop := ∀ c ∈ l, c ≠ ';'

instance (l : List Char) : Decidable (noSemiL l) :=
  inferInstanceAs (Decidable (∀ c ∈ l, c ≠ ';'))

/-- The head section of a serialized cookie (name, `=`, and the value
when it is non-empty), before the first `;`-led attribute. -/
def outHead (c : Cookie) : List Char :=
  (c.rawIfNeededOf c._name).data ++
    '=' :: (if c._value = "" then [] else (c.rawIfNeededOf c._value).data)

/-- The `;`-led attribute chunks of a serialized cookie, each without
its leading `"; "` separator's semicolon. -/
def outChunks (c : Cookie) (now : Int) : List (List Char) :=
  (if c._value = "" then
    [(" expires=").data ++ (responseFormat (subtractThirteenYears now)).data,
     (" Max-Age=0").data]
   else
    (if c._expiresAt ≠ 0 then [(" expires=").data ++ (responseFormat c._expiresAt).data] else [])
      ++ [(" Max-Age=").data ++ (intToString (c.getMaxAge now)).data]) ++
  (if c._path ≠ "" then [(" path=").data ++ c._path.data] else []) ++
  (if c._domain ≠ "" then [(" domain=").data ++ c._domain.data] else []) ++
  (if c._secure then [(" secure").data] else []) ++
  (if c._httpOnly then [(" httponly").data] else []) ++
  (if c._sameSite ≠ SameSite.NONE then [(" samesite=").data ++ (c._sameSite.valueOf).data] else [])

/-- Token form of one encoded character: a literal token for an
unreserved character, byte tokens for an escaped one. -/
def encTokens (c : Char) : List (Sum Char Nat) :=
  if isUnreservedURI c then [Sum.inl c] else (utf8Bytes c.toNat).map Sum.inr

/-- Token form of an encoded char list. -/
def encTokensL : List Char → List (Sum Char Nat)
  | [] => []
  | c :: rest => encTokens c ++ encTokensL rest

/-! # Theorems

First block: the `decodeURIComponent ∘ encodeURIComponent` round trip
and the character classes of encoder output. -/

theorem hexVal_hexDigitChar : ∀ d : Fin 16, hexVal (hexDigitChar d.val) = some d.val := by
  decide

theorem hexDigitChar_range :
    ∀ d : Fin 16,
      (48 ≤ (hexDigitChar d.val).toNat ∧ (hexDigitChar d.val).toNat ≤ 57) ∨
      (65 ≤ (hexDigitChar d.val).toNat ∧ (hexDigitChar d.val).toNat ≤ 70) := by
  decide

theorem utf8Bytes_lt_256 (v : Nat) (hv : v < 0x110000) : ∀ b ∈ utf8Bytes v, b < 256 := by
  intro b hb
  unfold utf8Bytes at hb
  split at hb
  · simp at hb; omega
  · split at hb
    · simp at hb
      rcases hb with h | h <;> omega
    · split at hb
      · simp at hb
        rcases hb with h | h | h <;> omega
      · simp at hb
        rcases hb with h | h | h | h <;> omega

theorem toTokens_percentByte (b : Nat) (hb : b < 256) (l : List Char) :
    toTokens (percentByte b ++ l) = (toTokens l).map (fun ts => Sum.inr b :: ts) := by
  have h1 : hexVal (hexDigitChar (b / 16)) = some (b / 16) :=
    hexVal_hexDigitChar ⟨b / 16, by omega⟩
  have h2 : hexVal (hexDigitChar (b % 16)) = some (b % 16) :=
    hexVal_hexDigitChar ⟨b % 16, by omega⟩
  have hb' : 16 * (b / 16) + b % 16 = b := by omega
  simp [percentByte, toTokens, h1, h2, hb']

theorem toTokens_percentBytes (bs : List Nat) (hbs : ∀ b ∈ bs, b < 256) (l : List Char) :
    toTokens ((bs.map percentByte).flatten ++ l) =
      (toTokens l).map (fun ts => bs.map Sum.inr ++ ts) := by
  induction bs with
  | nil => simp
  | cons b bs ih =>
    have hb : b < 256 := hbs b (List.mem_cons_self b bs)
    have ih' := ih (fun x hx => hbs x (List.mem_cons_of_mem b hx))
    simp only [List.map_cons, List.flatten_cons, List.append_assoc]
    rw [toTokens_percentByte b hb, ih']
    cases toTokens l <;> simp

theorem not_percent_of_unreserved (c : Char) (h : isUnreservedURI c = true) : ¬(c = '%') := by
  intro heq
  subst heq
  simp [isUnreservedURI] at h

theorem toTokens_encChar (c : Char) (l : List Char) :
    toTokens (encChar c ++ l) = (toTokens l).map (fun ts => encTokens c ++ ts) := by
  by_cases h : isUnreservedURI c = true
  · have hc : ¬(c = '%') := not_percent_of_unreserved c h
    have hstep : toTokens (c :: l) = (toTokens l).map (fun ts => Sum.inl c :: ts) := by
      rw [toTokens.eq_def]
      simp only []
      rw [if_neg hc]
    simp only [encChar, encTokens, h, if_true, List.singleton_append, List.cons_append,
      List.nil_append]
    rw [hstep]
  · have hv : c.toNat < 0x110000 := by
      have hval := c.valid
      have hnat : c.toNat = c.val.toNat := rfl
      rcases hval with h1 | h1
      · omega
      · omega
    simp only [encChar, encTokens, h, if_false, Bool.false_eq_true]
    rw [toTokens_percentBytes (utf8Bytes c.toNat) (utf8Bytes_lt_256 c.toNat hv) l]

theorem toTokens_encodeL (l : List Char) : toTokens (encodeL l) = some (encTokensL l) := by
  induction l with
  | nil => simp [encodeL, encTokensL, toTokens]
  | cons c rest ih =>
    simp only [encodeL, encTokensL]
    rw [toTokens_encChar, ih]
    rfl

theorem groupAux_inl (c : Char) (ts : List (Sum Char Nat)) :
    groupAux none (Sum.inl c :: ts) = (groupAux none ts).map (fun l => c :: l) := by
  simp only [groupAux]

theorem groupAux_ascii (b : Nat) (hb : b < 0x80) (ts : List (Sum Char Nat)) :
    groupAux none (Sum.inr b :: ts) = (groupAux none ts).map (fun l => Char.ofNat b :: l) := by
  simp only [groupAux]
  rw [if_pos hb]

theorem groupAux_lead2 (b : Nat) (hb : 0xC0 ≤ b ∧ b < 0xE0) (ts : List (Sum Char Nat)) :
    groupAux none (Sum.inr b :: ts) = groupAux (some (1, b - 0xC0, 0x80)) ts := by
  simp only [groupAux]
  rw [if_neg (by omega), if_neg (by omega), if_pos (by omega)]

theorem groupAux_lead3 (b : Nat) (hb : 0xE0 ≤ b ∧ b < 0xF0) (ts : List (Sum Char Nat)) :
    groupAux none (Sum.inr b :: ts) = groupAux (some (2, b - 0xE0, 0x800)) ts := by
  simp only [groupAux]
  rw [if_neg (by omega), if_neg (by omega), if_neg (by omega), if_pos (by omega)]

theorem groupAux_lead4 (b : Nat) (hb : 0xF0 ≤ b ∧ b < 0xF8) (ts : List (Sum Char Nat)) :
    groupAux none (Sum.inr b :: ts) = groupAux (some (3, b - 0xF0, 0x10000)) ts := by
  simp only [groupAux]
  rw [if_neg (by omega), if_neg (by omega), if_neg (by omega), if_neg (by omega),
    if_pos (by omega)]

theorem groupAux_cont_step (k acc mn b : Nat) (hb : 0x80 ≤ b ∧ b < 0xC0)
    (ts : List (Sum Char Nat)) :
    groupAux (some (k + 2, acc, mn)) (Sum.inr b :: ts) =
      groupAux (some (k + 1, acc * 64 + (b - 0x80), mn)) ts := by
  simp only [groupAux]
  rw [if_pos hb]

theorem groupAux_cont_last (acc mn b : Nat) (hb : 0x80 ≤ b ∧ b < 0xC0)
    (hv : mn ≤ acc * 64 + (b - 0x80) ∧
      ¬(0xD800 ≤ acc * 64 + (b - 0x80) ∧ acc * 64 + (b - 0x80) ≤ 0xDFFF) ∧
      acc * 64 + (b - 0x80) ≤ 0x10FFFF)
    (ts : List (Sum Char Nat)) :
    groupAux (some (1, acc, mn)) (Sum.inr b :: ts) =
      (groupAux none ts).map (fun l => Char.ofNat (acc * 64 + (b - 0x80)) :: l) := by
  simp only [groupAux]
  rw [if_pos hb, if_pos hv]

theorem tokensToString_encTokens (c : Char) (ts : List (Sum Char Nat)) :
    tokensToString (encTokens c ++ ts) = (tokensToString ts).map (fun l => c :: l) := by
  have hofc : Char.ofNat c.toNat = c := Char.ofNat_toNat c
  unfold tokensToString
  by_cases h : isUnreservedURI c = true
  · simp only [encTokens, h, if_true, List.singleton_append, List.cons_append, List.nil_append]
    rw [groupAux_inl]
  · have hval2 : c.toNat < 0xD800 ∨ (0xDFFF < c.toNat ∧ c.toNat < 0x110000) := c.valid
    simp only [encTokens, h, if_false, Bool.false_eq_true]
    by_cases h1 : c.toNat < 0x80
    · have hb : utf8Bytes c.toNat = [c.toNat] := by rw [utf8Bytes, if_pos h1]
      rw [hb]
      simp only [List.map_cons, List.map_nil, List.cons_append, List.nil_append]
      rw [groupAux_ascii c.toNat h1, hofc]
    · by_cases h2 : c.toNat < 0x800
      · have hb : utf8Bytes c.toNat = [0xC0 + c.toNat / 64, 0x80 + c.toNat % 64] := by
          rw [utf8Bytes, if_neg h1, if_pos h2]
        rw [hb]
        simp only [List.map_cons, List.map_nil, List.cons_append, List.nil_append]
        rw [groupAux_lead2 _ (by omega), groupAux_cont_last _ _ _ (by omega) (by omega)]
        have harith : (0xC0 + c.toNat / 64 - 0xC0) * 64 + (0x80 + c.toNat % 64 - 0x80) =
            c.toNat := by
          omega
        rw [harith, hofc]
      · by_cases h3 : c.toNat < 0x10000
        · have hb : utf8Bytes c.toNat =
              [0xE0 + c.toNat / 4096, 0x80 + c.toNat / 64 % 64, 0x80 + c.toNat % 64] := by
            rw [utf8Bytes, if_neg h1, if_neg h2, if_pos h3]
          rw [hb]
          simp only [List.map_cons, List.map_nil, List.cons_append, List.nil_append]
          rw [groupAux_lead3 _ (by omega)]
          rw [groupAux_cont_step 0 _ _ _ (by omega)]
          rw [groupAux_cont_last _ _ _ (by omega) (by omega)]
          have harith :
              ((0xE0 + c.toNat / 4096 - 0xE0) * 64 + (0x80 + c.toNat / 64 % 64 - 0x80)) * 64 +
                (0x80 + c.toNat % 64 - 0x80) = c.toNat := by
            omega
          rw [harith, hofc]
        · have hb : utf8Bytes c.toNat =
              [0xF0 + c.toNat / 262144, 0x80 + c.toNat / 4096 % 64, 0x80 + c.toNat / 64 % 64,
               0x80 + c.toNat % 64] := by
            rw [utf8Bytes, if_neg h1, if_neg h2, if_neg h3]
          rw [hb]
          simp only [List.map_cons, List.map_nil, List.cons_append, List.nil_append]
          rw [groupAux_lead4 _ (by omega)]
          rw [groupAux_cont_step 1 _ _ _ (by omega)]
          rw [groupAux_cont_step 0 _ _ _ (by omega)]
          rw [groupAux_cont_last _ _ _ (by omega) (by omega)]
          have harith :
              (((0xF0 + c.toNat / 262144 - 0xF0) * 64 + (0x80 + c.toNat / 4096 % 64 - 0x80)) *
                64 + (0x80 + c.toNat / 64 % 64 - 0x80)) * 64 + (0x80 + c.toNat % 64 - 0x80) =
                c.toNat := by
            omega
          rw [harith, hofc]

theorem tokensToString_encTokensL (l : List Char) : tokensToString (encTokensL l) = some l := by
  induction l with
  | nil => rfl
  | cons c rest ih =>
    simp only [encTokensL]
    rw [tokensToString_encTokens, ih]
    rfl

theorem decodeL_encodeL (l : List Char) : decodeL (encodeL l) = some l := by
  simp [decodeL, toTokens_encodeL, tokensToString_encTokensL]

theorem mem_encChar (c : Char) (x : Char) (hx : x ∈ encChar c) :
    x = '%' ∨ isUnreservedURI x = true ∨
      (48 ≤ x.toNat ∧ x.toNat ≤ 57) ∨ (65 ≤ x.toNat ∧ x.toNat ≤ 70) := by
  have hv : c.toNat < 0x110000 := by
    have hval2 : c.toNat < 0xD800 ∨ (0xDFFF < c.toNat ∧ c.toNat < 0x110000) := c.valid
    omega
  unfold encChar at hx
  by_cases h : isUnreservedURI c = true
  · rw [if_pos h] at hx
    have hxc : x = c := by simpa using hx
    subst hxc
    exact Or.inr (Or.inl h)
  · rw [if_neg h] at hx
    rw [List.mem_flatten] at hx
    obtain ⟨s, hs, hxs⟩ := hx
    rw [List.mem_map] at hs
    obtain ⟨b, hb, rfl⟩ := hs
    have hb256 : b < 256 := utf8Bytes_lt_256 c.toNat hv b hb
    have h16a : b / 16 < 16 := by omega
    have h16b : b % 16 < 16 := by omega
    simp only [percentByte, List.mem_cons, List.not_mem_nil, or_false] at hxs
    rcases hxs with rfl | rfl | rfl
    · exact Or.inl rfl
    · rcases hexDigitChar_range ⟨b / 16, h16a⟩ with hr | hr
      · exact Or.inr (Or.inr (Or.inl hr))
      · exact Or.inr (Or.inr (Or.inr hr))
    · rcases hexDigitChar_range ⟨b % 16, h16b⟩ with hr | hr
      · exact Or.inr (Or.inr (Or.inl hr))
      · exact Or.inr (Or.inr (Or.inr hr))

theorem mem_encodeL (l : List Char) (x : Char) (hx : x ∈ encodeL l) :
    x = '%' ∨ isUnreservedURI x = true ∨
      (48 ≤ x.toNat ∧ x.toNat ≤ 57) ∨ (65 ≤ x.toNat ∧ x.toNat ≤ 70) := by
  induction l with
  | nil => simp [encodeL] at hx
  | cons c rest ih =>
    simp only [encodeL, List.mem_append] at hx
    rcases hx with hx | hx
    · exact mem_encChar c x hx
    · exact ih hx

theorem unreserved_toNat (x : Char) (h : isUnreservedURI x = true) :
    (65 ≤ x.toNat ∧ x.toNat ≤ 90) ∨ (97 ≤ x.toNat ∧ x.toNat ≤ 122) ∨
    (48 ≤ x.toNat ∧ x.toNat ≤ 57) ∨ x.toNat = 45 ∨ x.toNat = 95 ∨ x.toNat = 46 ∨
    x.toNat = 33 ∨ x.toNat = 126 ∨ x.toNat = 42 ∨ x.toNat = 39 ∨ x.toNat = 40 ∨
    x.toNat = 41 := by
  simp only [isUnreservedURI, Bool.or_eq_true, Bool.and_eq_true, decide_eq_true_eq] at h
  tauto

theorem encodeL_no_eqsign (l : List Char) : ∀ x ∈ encodeL l, ¬(x = '=') := by
  intro x hx heq
  subst heq
  rcases mem_encodeL l _ hx with h | h | h | h
  · exact absurd h (by decide)
  · exact absurd h (by decide)
  · have hn : ('=').toNat = 61 := rfl
    omega
  · have hn : ('=').toNat = 61 := rfl
    omega

theorem encodeL_no_semi (l : List Char) : ∀ x ∈ encodeL l, ¬(x = ';') := by
  intro x hx heq
  subst heq
  rcases mem_encodeL l _ hx with h | h | h | h
  · exact absurd h (by decide)
  · exact absurd h (by decide)
  · have hn : (';').toNat = 59 := rfl
    omega
  · have hn : (';').toNat = 59 := rfl
    omega

theorem ws_toNat (x : Char) (h : isJsWhitespace x = true) :
    x.toNat = 9 ∨ x.toNat = 10 ∨ x.toNat = 11 ∨ x.toNat = 12 ∨ x.toNat = 13 ∨
    x.toNat = 32 ∨ x.toNat = 160 ∨ x.toNat = 0x1680 ∨
    (0x2000 ≤ x.toNat ∧ x.toNat ≤ 0x200A) ∨ x.toNat = 0x2028 ∨ x.toNat = 0x2029 ∨
    x.toNat = 0x202F ∨ x.toNat = 0x205F ∨ x.toNat = 0x3000 ∨ x.toNat = 0xFEFF := by
  simp only [isJsWhitespace, Bool.or_eq_true, Bool.and_eq_true, decide_eq_true_eq] at h
  tauto

theorem encodeL_no_ws (l : List Char) : ∀ x ∈ encodeL l, isJsWhitespace x = false := by
  intro x hx
  rcases hw : isJsWhitespace x with _ | _
  · rfl
  · exfalso
    have hws := ws_toNat x hw
    rcases mem_encodeL l _ hx with h | h | h | h
    · subst h
      have hn : ('%').toNat = 37 := rfl
      omega
    · have := unreserved_toNat x h
      omega
    · omega
    · omega

theorem jsSplit_ne_nil (sep : Char) (l : List Char) : jsSplit sep l ≠ [] := by
  induction l with
  | nil => simp [jsSplit]
  | cons c rest ih =>
    simp only [jsSplit]
    by_cases h : c = sep
    · rw [if_pos h]
      simp
    · rw [if_neg h]
      cases hx : jsSplit sep rest with
      | nil => simp
      | cons p m => simp

theorem jsSplit_no_sep (sep : Char) (l : List Char) (h : ∀ x ∈ l, ¬(x = sep)) :
    jsSplit sep l = [l] := by
  induction l with
  | nil => rfl
  | cons c rest ih =>
    have hc : ¬(c = sep) := h c (List.mem_cons_self c rest)
    have hrest := ih (fun x hx => h x (List.mem_cons_of_mem c hx))
    simp only [jsSplit]
    rw [if_neg hc, hrest]

theorem jsSplit_append (sep : Char) (a b : List Char) (ha : ∀ x ∈ a, ¬(x = sep)) :
    jsSplit sep (a ++ sep :: b) = a :: jsSplit sep b := by
  induction a with
  | nil =>
    simp [jsSplit]
  | cons c a ih =>
    have hc : ¬(c = sep) := ha c (List.mem_cons_self c a)
    have ha' := ih (fun x hx => ha x (List.mem_cons_of_mem c hx))
    simp only [List.cons_append, jsSplit, List.append_eq]
    rw [if_neg hc, ha']

theorem jsTrimStart_no_ws (l : List Char) (h : ∀ x ∈ l, isJsWhitespace x = false) :
    jsTrimStart l = l := by
  cases l with
  | nil => rfl
  | cons c rest =>
    unfold jsTrimStart
    rw [List.dropWhile_cons]
    rw [h c (List.mem_cons_self c rest)]
    simp

theorem encChar_ne_nil (c : Char) : encChar c ≠ [] := by
  unfold encChar
  by_cases h : isUnreservedURI c = true
  · rw [if_pos h]
    simp
  · rw [if_neg h]
    unfold utf8Bytes
    split
    · simp [percentByte]
    · split
      · simp [percentByte]
      · split
        · simp [percentByte]
        · simp [percentByte]

theorem encodeL_ne_nil (c : Char) (rest : List Char) : encodeL (c :: rest) ≠ [] := by
  simp only [encodeL]
  intro h
  exact encChar_ne_nil c (List.append_eq_nil.mp h).1

/-- C4: parsing the header fragment `percentEncode(n) + "=" + percentEncode(v)`
yields a Cookie whose name is `n` and whose value is `v`, for any
non-empty name `n` free of `=` and `;`. -/
theorem parseCookie_encode_round_trip (n v : String) (hn : n ≠ "")
    (hchars : ∀ c ∈ n.data, ¬(c = '=') ∧ ¬(c = ';')) :
    ∃ ck : Cookie,
      CookiesManager.parseCookie (encodeURIComponent n ++ "=" ++ encodeURIComponent v) =
        Except.ok (some ck) ∧ ck.getName = n ∧ ck.getValue = v := by
  refine ⟨Cookie.mkDefault n v, ?_, rfl, rfl⟩
  unfold CookiesManager.parseCookie
  have hdata : (encodeURIComponent n ++ "=" ++ encodeURIComponent v).data =
      encodeL n.data ++ '=' :: encodeL v.data := by
    simp [encodeURIComponent, String.data_append]
  rw [hdata]
  unfold parseCookieL
  rw [jsSplit_append '=' _ _ (encodeL_no_eqsign n.data),
    jsSplit_no_sep '=' _ (encodeL_no_eqsign v.data)]
  simp only [List.headD_cons]
  rw [jsTrimStart_no_ws _ (encodeL_no_ws n.data), decodeL_encodeL]
  have hne : n.data ≠ [] := by
    intro h
    apply hn
    rw [show n = String.mk n.data from rfl, h]
  simp only []
  rw [if_neg hne]
  simp only [List.getElem?_cons_succ, List.getElem?_cons_zero, Option.getD_some]
  rw [decodeL_encodeL]

theorem parseCookie_encode_round_trip_check :
    ∃ ck : Cookie,
      CookiesManager.parseCookie (encodeURIComponent "sid" ++ "=" ++ encodeURIComponent "a b;c") =
        Except.ok (some ck) ∧ ck.getName = "sid" ∧ ck.getValue = "a b;c" :=
  parseCookie_encode_round_trip "sid" "a b;c" (by decide) (by decide)

theorem jsSplit_headD (sep : Char) (l : List Char) :
    (jsSplit sep l).headD [] = l.takeWhile (fun c => !(c == sep)) := by
  induction l with
  | nil => rfl
  | cons c rest ih =>
    simp only [jsSplit]
    by_cases h : c = sep
    · rw [if_pos h]
      subst h
      simp [List.takeWhile_cons]
    · rw [if_neg h]
      cases hx : jsSplit sep rest with
      | nil => exact absurd hx (jsSplit_ne_nil sep rest)
      | cons p m =>
        rw [hx] at ih
        simp only [List.headD_cons] at ih
        simp [List.takeWhile_cons, h, ih]

theorem jsSplit_second (sep : Char) (l : List Char) :
    ((jsSplit sep l)[1]?).getD [] = betweenAux sep l := by
  induction l with
  | nil => rfl
  | cons c rest ih =>
    simp only [jsSplit]
    by_cases h : c = sep
    · rw [if_pos h]
      cases hx : jsSplit sep rest with
      | nil => exact absurd hx (jsSplit_ne_nil sep rest)
      | cons p m =>
        have hhead := jsSplit_headD sep rest
        rw [hx] at hhead
        simp only [List.headD_cons] at hhead
        simp only [hx, List.getElem?_cons_succ, List.getElem?_cons_zero, Option.getD_some]
        rw [show betweenAux sep (c :: rest) = rest.takeWhile (fun x => !(x == sep)) from by
          simp [betweenAux, List.dropWhile_cons, h]]
        exact hhead
    · rw [if_neg h]
      cases hx : jsSplit sep rest with
      | nil => exact absurd hx (jsSplit_ne_nil sep rest)
      | cons p m =>
        rw [hx] at ih
        simp only [List.getElem?_cons_succ] at ih ⊢
        rw [show betweenAux sep (c :: rest) = betweenAux sep rest
          from by simp [betweenAux, List.dropWhile_cons, h]]
        exact ih

/-- C3 (amended): `parseCookie` behaves exactly as the first-and-second
`=` splitting spec: the name is the part before the first `=`, the
value the part between the first and second `=`, the name is
left-trimmed, both parts are percent-decoded (propagating `URIError`),
and an empty decoded name yields null. -/
theorem parseCookie_follows_split_spec (frag : String) :
    CookiesManager.parseCookie frag = parseCookieSpecL frag.data := by
  unfold CookiesManager.parseCookie parseCookieL parseCookieSpecL firstSplitName
    betweenFirstAndSecondEq
  simp only []
  rw [jsSplit_headD, jsSplit_second]

/-- C3 counterexample: on `"a=b=c"` the parsed value is `"b"`, not
everything after the first `=` (which would be `"b=c"`). -/
theorem parseCookie_value_stops_at_second_eq :
    CookiesManager.parseCookie "a=b=c" = Except.ok (some (Cookie.mkDefault "a" "b")) ∧
      (Cookie.mkDefault "a" "b").getValue ≠ "b=c" := by
  constructor
  · rfl
  · decide

/-- C5: `setExpire` throws `InvalidArgument` exactly when the timestamp
is non-zero and not a valid date/time; on a throw the cookie state is
unchanged, and on a zero or valid timestamp the expiry is stored and no
exception is raised. -/
theorem setExpire_validates_timestamp (c : Cookie) (t : Option Int) :
    ((c.setExpire t).2 ≠ none ↔ (t ≠ some 0 ∧ dayjsIsValid t = false)) ∧
    ((c.setExpire t).2 ≠ none → (c.setExpire t).1 = c) ∧
    (∀ n : Int, t = some n → (n = 0 ∨ dayjsIsValid t = true) →
      c.setExpire t = ({ c with _expiresAt := n }, none)) := by
  cases t with
  | none =>
    have hcond : (none : Option Int) ≠ some 0 ∧ dayjsIsValid none = false := by
      constructor
      · intro h
        cases h
      · rfl
    unfold Cookie.setExpire
    rw [if_pos hcond]
    refine ⟨⟨fun _ => hcond, fun _ => by simp⟩, fun _ => rfl, ?_⟩
    intro n hn
    cases hn
  | some m =>
    by_cases hm : m = 0
    · subst hm
      have hcond : ¬((some (0 : Int)) ≠ some 0 ∧ dayjsIsValid (some 0) = false) := by
        intro hc
        exact hc.1 rfl
      unfold Cookie.setExpire
      rw [if_neg hcond]
      refine ⟨⟨fun hne => absurd rfl hne, fun hc => absurd rfl hc.1⟩,
        fun hne => absurd rfl hne, ?_⟩
      intro n hn hv
      injection hn with hn
      subst hn
      rfl
    · by_cases hvalid : dayjsIsValid (some m) = true
      · have hcond : ¬((some m) ≠ some 0 ∧ dayjsIsValid (some m) = false) := by
          intro hc
          rw [hvalid] at hc
          cases hc.2
        unfold Cookie.setExpire
        rw [if_neg hcond]
        refine ⟨⟨fun hne => absurd rfl hne, fun hc => by rw [hvalid] at hc; cases hc.2⟩,
          fun hne => absurd rfl hne, ?_⟩
        intro n hn hv
        injection hn with hn
        subst hn
        rfl
      · have hfalse : dayjsIsValid (some m) = false := by
          cases hdm : dayjsIsValid (some m)
          · rfl
          · exact absurd hdm hvalid
        have hcond : (some m) ≠ some 0 ∧ dayjsIsValid (some m) = false := by
          refine ⟨?_, hfalse⟩
          intro he
          injection he with he
          exact hm he
        unfold Cookie.setExpire
        rw [if_pos hcond]
        refine ⟨⟨fun _ => hcond, fun _ => by simp⟩, fun _ => rfl, ?_⟩
        intro n hn hv
        injection hn with hn
        subst hn
        rcases hv with hv | hv
        · exact absurd hv hm
        · rw [hfalse] at hv
          cases hv

theorem setExpire_validates_timestamp_check :
    (Cookie.mkDefault "k" "v").setExpire (some 5) =
      ({ Cookie.mkDefault "k" "v" with _expiresAt := 5 }, none) :=
  (setExpire_validates_timestamp (Cookie.mkDefault "k" "v") (some 5)).2.2 5 rfl
    (Or.inr (by decide))

theorem expire_sets_past (c : Cookie) (now : Int) (h0 : 0 ≤ now)
    (h1 : now ≤ 8640000000000000) :
    c.expire now = ({ c with _expiresAt := subtractThirteenYears now }, none) := by
  have hvalid : dayjsIsValid (some (subtractThirteenYears now)) = true := by
    unfold dayjsIsValid subtractThirteenYears
    simp only [decide_eq_true_eq]
    omega
  have hcond : ¬(some (subtractThirteenYears now) ≠ some 0 ∧
      dayjsIsValid (some (subtractThirteenYears now)) = false) := by
    intro hc
    rw [hvalid] at hc
    cases hc.2
  unfold Cookie.expire Cookie.setExpire
  rw [if_neg hcond]

/-- C1: on an empty value, `toString` force-expires the instance
(setting its expiry thirteen years into the past, whatever was stored
before), and the output is the (conditionally encoded) name, `=`, an
`expires=` attribute carrying the HTTP-date of that past expiry, and
`Max-Age=0`, followed by the usual attribute tail.  The current time is
assumed to lie in the representable `Date` range. -/
theorem toString_empty_value_forces_expiry (c : Cookie) (now : Int)
    (hv : c._value = "") (h0 : 0 ≤ now) (h1 : now ≤ 8640000000000000) :
    c.toStringAt now =
      Except.ok
        (c.rawIfNeededOf c._name ++ "=" ++ "; expires=" ++
          responseFormat (subtractThirteenYears now) ++ "; Max-Age=0" ++
          Cookie.attrsTail { c with _expiresAt := subtractThirteenYears now },
         { c with _expiresAt := subtractThirteenYears now }) ∧
      subtractThirteenYears now < now := by
  constructor
  · unfold Cookie.toStringAt
    simp only []
    rw [if_pos hv, expire_sets_past c now h0 h1]
  · unfold subtractThirteenYears
    omega

theorem toString_empty_value_forces_expiry_check :
    (Cookie.mk "sid" "" 123456 "/" "" false false true SameSite.NONE).toStringAt 1000000 =
      Except.ok
        ((Cookie.mk "sid" "" 123456 "/" "" false false true SameSite.NONE).rawIfNeededOf "sid"
            ++ "=" ++ "; expires=" ++ responseFormat (subtractThirteenYears 1000000) ++
            "; Max-Age=0" ++
            Cookie.attrsTail
              { Cookie.mk "sid" "" 123456 "/" "" false false true SameSite.NONE with
                  _expiresAt := subtractThirteenYears 1000000 },
         { Cookie.mk "sid" "" 123456 "/" "" false false true SameSite.NONE with
             _expiresAt := subtractThirteenYears 1000000 }) ∧
      subtractThirteenYears 1000000 < 1000000 :=
  toString_empty_value_forces_expiry
    (Cookie.mk "sid" "" 123456 "/" "" false false true SameSite.NONE) 1000000 rfl
    (by decide) (by decide)

/-- C10: for a non-empty value, `toString` is pure: the object state
after the call is the object state before it, every field included. -/
theorem toString_pure_for_nonempty_value (c : Cookie) (now : Int)
    (hv : ¬(c._value = "")) :
    ∃ s : String, c.toStringAt now = Except.ok (s, c) := by
  unfold Cookie.toStringAt
  simp only []
  rw [if_neg hv]
  exact ⟨_, rfl⟩

theorem toString_pure_for_nonempty_value_check :
    ∃ s : String, (Cookie.mkDefault "k" "v").toStringAt 7 =
      Except.ok (s, Cookie.mkDefault "k" "v") :=
  toString_pure_for_nonempty_value (Cookie.mkDefault "k" "v") 7 (by decide)

/-- C2 counterexample: on a freshly constructed manager holding no
cookies at all, `get "toString"` returns the inherited
`Object.prototype.toString` function — a truthy value that survives
the `|| null` tests — instead of the `null` default, because the
dictionary read walks the prototype chain. -/
theorem get_returns_inherited_member :
    (CookiesManager.mk JsDict.empty JsDict.empty).get "toString" none =
        some (JsValue.builtinFun "toString") ∧
      ¬(some (JsValue.builtinFun "toString") = (none : Option JsValue)) :=
  ⟨rfl, by simp⟩

theorem entriesGet_entriesSet_self (mlist : List (String × Cookie)) (k : String) (v : Cookie) :
    entriesGet (entriesSet mlist k v) k = some v := by
  unfold entriesGet entriesSet
  rw [List.find?_cons_of_pos _ (by simp)]
  rfl

theorem find_filter_ne (k : String) (l : List (String × Cookie)) :
    (l.filter (fun p => !(p.1 == k))).find? (fun p => p.1 == k) = none := by
  induction l with
  | nil => rfl
  | cons p rest ih =>
    rw [List.filter_cons]
    by_cases h : p.1 == k
    · simp only [h, Bool.not_true, Bool.false_eq_true, if_false]
      exact ih
    · have hb : (!(p.1 == k)) = true := by simp [h]
      simp only [hb, if_true]
      rw [List.find?_cons_of_neg _ (by simp [h])]
      exact ih

theorem entriesGet_entriesDelete_self (mlist : List (String × Cookie)) (k : String) :
    entriesGet (entriesDelete mlist k) k = none := by
  unfold entriesGet entriesDelete
  rw [find_filter_ne]
  rfl

theorem read_entry (d : JsDict) (k : String) (ck : Cookie)
    (h : entriesGet d.entries k = some ck) : d.read k = JsValue.cookieVal ck := by
  unfold JsDict.read
  rw [h]

set_option maxHeartbeats 2000000 in
theorem cookieChainRead_ne_cookieVal (c : Cookie) (k : String) (c2 : Cookie) :
    ¬(cookieChainRead c k = JsValue.cookieVal c2) := by
  intro h
  unfold cookieChainRead at h
  iterate 11 (split at h <;> try exact JsValue.noConfusion h)

theorem read_absent_ne_cookieVal (d : JsDict) (k : String) (c2 : Cookie)
    (hk : ¬(k = "__proto__")) (h : entriesGet d.entries k = none) :
    ¬(d.read k = JsValue.cookieVal c2) := by
  unfold JsDict.read
  rw [h]
  simp only []
  rw [if_neg hk]
  cases hp : d.proto with
  | objectProto =>
    by_cases hm : k ∈ objectProtoMembers
    · rw [if_pos hm]
      intro hcon
      simp at hcon
    · rw [if_neg hm]
      intro hcon
      simp at hcon
  | cookieProto c => exact cookieChainRead_ne_cookieVal c k c2

theorem read_clean_absent (d : JsDict) (k : String)
    (hq : d.proto = JsProto.objectProto) (hp : ¬(k = "__proto__"))
    (hm : ¬(k ∈ objectProtoMembers)) (h : entriesGet d.entries k = none) :
    d.read k = JsValue.undefinedVal := by
  unfold JsDict.read
  rw [h]
  simp only []
  rw [if_neg hp, hq]
  simp only []
  rw [if_neg hm]

/-- C2 (amended): when neither dictionary has had its prototype
polluted and the name shadows no `Object.prototype` member and is not
`"__proto__"`, `get` returns the queued cookie when one is stored
under the name, else the incoming cookie when one is stored, else the
default.  Prototype-inherited names break this: see the
counterexample. -/
theorem get_prefers_queued (m : CookiesManager) (name : String) (dflt : Option JsValue)
    (hqp : m._queue.proto = JsProto.objectProto)
    (hip : m._incoming.proto = JsProto.objectProto)
    (hp : ¬(name = "__proto__"))
    (hm : ¬(name ∈ objectProtoMembers)) :
    (∀ ck, entriesGet m._queue.entries name = some ck →
      m.get name dflt = some (JsValue.cookieVal ck)) ∧
    (entriesGet m._queue.entries name = none →
      ∀ ck, entriesGet m._incoming.entries name = some ck →
        m.get name dflt = some (JsValue.cookieVal ck)) ∧
    (entriesGet m._queue.entries name = none →
      entriesGet m._incoming.entries name = none →
      m.get name dflt = dflt) := by
  have hqsome : ∀ ck, entriesGet m._queue.entries name = some ck →
      m.queued name = some (JsValue.cookieVal ck) := by
    intro ck h
    unfold CookiesManager.queued
    simp only []
    rw [read_entry m._queue name ck h]
    rfl
  have hqnone : entriesGet m._queue.entries name = none → m.queued name = none := by
    intro h
    unfold CookiesManager.queued
    simp only []
    rw [read_clean_absent m._queue name hqp hp hm h]
    rfl
  have hisome : ∀ ck, entriesGet m._incoming.entries name = some ck →
      m.incoming name = some (JsValue.cookieVal ck) := by
    intro ck h
    unfold CookiesManager.incoming
    simp only []
    rw [read_entry m._incoming name ck h]
    rfl
  have hinone : entriesGet m._incoming.entries name = none → m.incoming name = none := by
    intro h
    unfold CookiesManager.incoming
    simp only []
    rw [read_clean_absent m._incoming name hip hp hm h]
    rfl
  refine ⟨?_, ?_, ?_⟩
  · intro ck h
    unfold CookiesManager.get
    rw [hqsome ck h]
  · intro h ck h2
    unfold CookiesManager.get
    rw [hqnone h, hisome ck h2]
  · intro h h2
    unfold CookiesManager.get
    rw [hqnone h, hinone h2]

theorem get_prefers_queued_check :
    (CookiesManager.mk (JsDict.mk [("x", Cookie.mkDefault "x" "old")] JsProto.objectProto)
        (JsDict.mk [("x", Cookie.mkDefault "x" "new")] JsProto.objectProto)).get "x" none =
      some (JsValue.cookieVal (Cookie.mkDefault "x" "new")) :=
  (get_prefers_queued
      (CookiesManager.mk (JsDict.mk [("x", Cookie.mkDefault "x" "old")] JsProto.objectProto)
        (JsDict.mk [("x", Cookie.mkDefault "x" "new")] JsProto.objectProto))
      "x" none rfl rfl (by decide) (by decide)).1
    (Cookie.mkDefault "x" "new") (by decide)

theorem hasQueued_true_of_read_cookieVal (m : CookiesManager) (name : String)
    (h : ∃ ck, m._queue.read name = JsValue.cookieVal ck) :
    m.hasQueued name = true := by
  obtain ⟨ck, h⟩ := h
  unfold CookiesManager.hasQueued
  rw [h]

theorem hasQueued_false_of_not_cookieVal (m : CookiesManager) (name : String)
    (h : ∀ ck, ¬(m._queue.read name = JsValue.cookieVal ck)) :
    m.hasQueued name = false := by
  unfold CookiesManager.hasQueued
  cases hv : m._queue.read name
  case cookieVal ck => exact absurd hv (h ck)
  all_goals rfl

theorem read_assign_self (d : JsDict) (k : String) (v : Cookie) :
    ∃ ck, (d.assign k v).read k = JsValue.cookieVal ck := by
  unfold JsDict.assign
  by_cases hk : k = "__proto__"
  · rw [if_pos hk]
    cases he : entriesGet d.entries k with
    | some ck =>
      refine ⟨ck, ?_⟩
      unfold JsDict.read
      simp only []
      rw [he]
    | none =>
      refine ⟨v, ?_⟩
      unfold JsDict.read
      simp only []
      rw [he]
      simp only []
      rw [if_pos hk]
  · rw [if_neg hk]
    refine ⟨v, ?_⟩
    unfold JsDict.read
    simp only []
    rw [entriesGet_entriesSet_self]

/-- C9 counterexample: the stored values are all `Cookie` instances,
but the dictionary itself is not a clean map.  Queueing a cookie named
`"__proto__"` invokes the inherited setter and replaces the queue's
prototype instead of storing an own entry; `unqueue "__proto__"`
(a `delete`, which removes own properties only) then removes nothing,
and `hasQueued "__proto__"` still answers `true` afterwards. -/
theorem unqueue_cannot_remove_proto_cookie :
    ((((CookiesManager.mk JsDict.empty JsDict.empty).queue
          (Cookie.mkDefault "__proto__" "pwn")).unqueue "__proto__").hasQueued "__proto__")
        = true ∧
      (((CookiesManager.mk JsDict.empty JsDict.empty).queue
          (Cookie.mkDefault "__proto__" "pwn"))._queue.entries = []) :=
  ⟨rfl, rfl⟩

/-- C9 (amended): for any name other than `"__proto__"`, `hasQueued`
answers own-entry presence in `_queue` (every stored value is a
`Cookie` instance, so the `instanceof` test is entry presence);
queueing a cookie always makes `hasQueued` of its name true; and after
`unqueue name` with `name ≠ "__proto__"`, `hasQueued name` is false.
The name `"__proto__"` is the exception: see the counterexample. -/
theorem hasQueued_iff_queue_entry (m : CookiesManager) (c : Cookie) (name : String)
    (hp : ¬(name = "__proto__")) :
    (m.hasQueued name = (entriesGet m._queue.entries name).isSome) ∧
    ((m.queue c).hasQueued c.getName = true) ∧
    ((m.unqueue name).hasQueued name = false) := by
  refine ⟨?_, ?_, ?_⟩
  · cases he : entriesGet m._queue.entries name with
    | some ck =>
      have hr : m._queue.read name = JsValue.cookieVal ck := read_entry m._queue name ck he
      unfold CookiesManager.hasQueued
      rw [hr]
      rfl
    | none =>
      have hfalse : m.hasQueued name = false :=
        hasQueued_false_of_not_cookieVal m name
          (fun ck => read_absent_ne_cookieVal m._queue name ck hp he)
      rw [hfalse]
      rfl
  · exact hasQueued_true_of_read_cookieVal (m.queue c) c.getName
      (read_assign_self m._queue c.getName c)
  · exact hasQueued_false_of_not_cookieVal (m.unqueue name) name
      (fun ck => read_absent_ne_cookieVal (m._queue.del name) name ck hp
        (entriesGet_entriesDelete_self m._queue.entries name))

theorem hasQueued_iff_queue_entry_check :
    ((CookiesManager.mk JsDict.empty JsDict.empty).hasQueued "sid" =
      (entriesGet (CookiesManager.mk JsDict.empty JsDict.empty)._queue.entries "sid").isSome) ∧
    (((CookiesManager.mk JsDict.empty JsDict.empty).queue
        (Cookie.mkDefault "sid" "1")).hasQueued (Cookie.mkDefault "sid" "1").getName = true) ∧
    (((CookiesManager.mk JsDict.empty JsDict.empty).unqueue "sid").hasQueued "sid" = false) :=
  hasQueued_iff_queue_entry (CookiesManager.mk JsDict.empty JsDict.empty)
    (Cookie.mkDefault "sid" "1") "sid" (by decide)

/-- C7 (amended): only `parseIncomingCookies` writes the incoming
dictionary; the queue operations leave it untouched (the remaining
methods are pure reads). -/
theorem incoming_untouched_by_queue_ops (m : CookiesManager) (c : Cookie) (name : String) :
    ((m.queue c)._incoming = m._incoming) ∧ ((m.unqueue name)._incoming = m._incoming) :=
  ⟨rfl, rfl⟩

/-- C7 counterexample: `parseIncomingCookies` is a public method of the
manager, and calling it again after construction mutates the incoming
dictionary. -/
theorem parseIncomingCookies_mutates_after_construction :
    CookiesManager.construct "a=1" =
        Except.ok (CookiesManager.mk
          (JsDict.mk [("a", Cookie.mkDefault "a" "1")] JsProto.objectProto) JsDict.empty) ∧
      CookiesManager.parseIncomingCookies
          (CookiesManager.mk
            (JsDict.mk [("a", Cookie.mkDefault "a" "1")] JsProto.objectProto) JsDict.empty)
          "b=2" =
        Except.ok (CookiesManager.mk
          (JsDict.mk [("b", Cookie.mkDefault "b" "2"), ("a", Cookie.mkDefault "a" "1")]
            JsProto.objectProto) JsDict.empty) ∧
      ¬([("b", Cookie.mkDefault "b" "2"), ("a", Cookie.mkDefault "a" "1")] =
        ([("a", Cookie.mkDefault "a" "1")] : List (String × Cookie))) := by
  refine ⟨by rfl, by rfl, by decide⟩

theorem parseCookieL_ok_of_decodes (frag : List Char) (h : fragmentDecodes frag = true) :
    ∃ r, parseCookieL frag = Except.ok r := by
  unfold fragmentDecodes at h
  simp only [Bool.and_eq_true, Option.isSome_iff_exists] at h
  obtain ⟨⟨nm, hnm⟩, ⟨vl, hvl⟩⟩ := h
  unfold parseCookieL
  simp only []
  rw [hnm]
  simp only []
  by_cases hn : nm = []
  · rw [if_pos hn]
    exact ⟨none, rfl⟩
  · rw [if_neg hn, hvl]
    exact ⟨some (Cookie.mkDefault (String.mk nm) (String.mk vl)), rfl⟩

/-- C8 (amended): fragments whose decoded, left-trimmed name is empty
are silently discarded — parsing `"; a=1;;"` yields exactly one entry
`a = 1` — and parsing never raises on a header all of whose fragments
are well-formed percent-encodings; a malformed percent sequence,
however, raises `URIError` (see the counterexample). -/
theorem parseIncoming_drops_empty_names :
    (CookiesManager.parseIncomingCookies (CookiesManager.mk JsDict.empty JsDict.empty)
        "; a=1;;" =
      Except.ok (CookiesManager.mk
        (JsDict.mk [("a", Cookie.mkDefault "a" "1")] JsProto.objectProto) JsDict.empty)) ∧
    (∀ (m : CookiesManager) (header : String),
      (∀ frag ∈ jsSplit ';' header.data, fragmentDecodes frag = true) →
      ∃ m2, CookiesManager.parseIncomingCookies m header = Except.ok m2) := by
  constructor
  · rfl
  · intro m header hdr
    unfold CookiesManager.parseIncomingCookies
    generalize hfr : jsSplit ';' header.data = frs at hdr
    clear hfr
    induction frs generalizing m with
    | nil => exact ⟨m, rfl⟩
    | cons f fs ih =>
      obtain ⟨r, hr⟩ := parseCookieL_ok_of_decodes f (hdr f (List.mem_cons_self f fs))
      have ih' := fun st => ih st (fun x hx => hdr x (List.mem_cons_of_mem f hx))
      rw [List.foldlM_cons, hr]
      cases r with
      | none =>
        obtain ⟨m2, hm2⟩ := ih' m
        exact ⟨m2, by simpa using hm2⟩
      | some ck =>
        obtain ⟨m2, hm2⟩ := ih' { m with _incoming := m._incoming.assign ck.getName ck }
        exact ⟨m2, by simpa using hm2⟩

/-- C8 counterexample: the header `"%=1"` contains a malformed percent
escape in a cookie name, and `parseIncomingCookies` raises `URIError`
on it instead of parsing quietly. -/
theorem parseIncomingCookies_raises_on_malformed_percent :
    CookiesManager.parseIncomingCookies (CookiesManager.mk JsDict.empty JsDict.empty) "%=1" =
      Except.error JsException.uriError := by
  rfl

theorem parseIncoming_drops_empty_names_check :
    ∃ m2, CookiesManager.parseIncomingCookies (CookiesManager.mk JsDict.empty JsDict.empty)
        "b=2" =
      Except.ok m2 :=
  parseIncoming_drops_empty_names.2 (CookiesManager.mk JsDict.empty JsDict.empty) "b=2"
    (by decide)

theorem digit_char_range :
    ∀ d : Fin 10, 48 ≤ (Char.ofNat (48 + d.val)).toNat ∧ (Char.ofNat (48 + d.val)).toNat ≤ 57 := by
  decide

theorem natToCharsAux_digits (fuel : Nat) :
    ∀ (n : Nat) (acc : List Char), (∀ x ∈ acc, 48 ≤ x.toNat ∧ x.toNat ≤ 57) →
      ∀ x ∈ natToCharsAux fuel n acc, 48 ≤ x.toNat ∧ x.toNat ≤ 57 := by
  induction fuel with
  | zero => exact fun n acc hacc => hacc
  | succ fuel ih =>
    intro n acc hacc x hx
    have hd := digit_char_range ⟨n % 10, Nat.mod_lt n (by omega)⟩
    simp only [natToCharsAux] at hx
    split at hx
    · rcases List.mem_cons.mp hx with rfl | hmem
      · exact hd
      · exact hacc x hmem
    · refine ih (n / 10) (Char.ofNat (48 + n % 10) :: acc) ?_ x hx
      intro y hy
      rcases List.mem_cons.mp hy with rfl | hmem
      · exact hd
      · exact hacc y hmem

theorem natToChars_digits (n : Nat) : ∀ x ∈ natToChars n, 48 ≤ x.toNat ∧ x.toNat ≤ 57 :=
  natToCharsAux_digits (n + 1) n [] (by simp)

theorem intToChars_no_semi (i : Int) : noSemiL (intToChars i) := by
  intro x hx heq
  subst heq
  have hsemi : (';').toNat = 59 := rfl
  unfold intToChars at hx
  split at hx
  · rcases List.mem_cons.mp hx with habs | hmem
    · have : ('-').toNat = 45 := rfl
      have := congrArg Char.toNat habs
      omega
    · have := natToChars_digits i.natAbs _ hmem
      omega
  · have := natToChars_digits i.toNat _ hx
    omega

theorem pad2_no_semi (n : Nat) : noSemiL (pad2 n) := by
  intro x hx heq
  subst heq
  have hsemi : (';').toNat = 59 := rfl
  unfold pad2 at hx
  split at hx
  · rcases List.mem_cons.mp hx with habs | hmem
    · have : ('0').toNat = 48 := rfl
      have := congrArg Char.toNat habs
      omega
    · have := natToChars_digits n _ hmem
      omega
  · have := natToChars_digits n _ hx
    omega

theorem noSemiL_append (a b : List Char) (ha : noSemiL a) (hb : noSemiL b) :
    noSemiL (a ++ b) := by
  intro x hx
  rcases List.mem_append.mp hx with h | h
  · exact ha x h
  · exact hb x h

theorem weekday_no_semi (wd : Nat) : noSemiL ((weekdayNames.getD wd "Sun").data) := by
  by_cases h : wd < 7
  · interval_cases wd <;> decide
  · rw [List.getD_eq_default]
    · decide
    · simp only [weekdayNames]
      simp
      omega

theorem month_no_semi (m : Nat) : noSemiL ((monthNames.getD m "Jan").data) := by
  by_cases h : m < 12
  · interval_cases m <;> decide
  · rw [List.getD_eq_default]
    · decide
    · simp only [monthNames]
      simp
      omega

theorem responseFormat_no_semi (t : Int) : noSemiL (responseFormat t).data := by
  unfold responseFormat
  dsimp only
  repeat1 apply noSemiL_append
  all_goals
    first
      | exact weekday_no_semi _
      | exact month_no_semi _
      | exact pad2_no_semi _
      | exact intToChars_no_semi _
      | decide

theorem isPre_semi_cons_false (p : List Char) (c : Char) (l : List Char) (hc : ¬(c = ';')) :
    isPre (';' :: p) (c :: l) = false := by
  simp only [isPre, Bool.and_eq_false_iff]
  left
  simp [beq_eq_false_iff_ne]
  intro h
  exact hc h.symm

theorem countOcc_skip_no_semi (p : List Char) (a t : List Char) (ha : noSemiL a) :
    countOcc (';' :: p) (a ++ t) = countOcc (';' :: p) t := by
  induction a with
  | nil => rfl
  | cons c a ih =>
    have hc : ¬(c = ';') := ha c (List.mem_cons_self c a)
    have ha2 : noSemiL a := fun x hx => ha x (List.mem_cons_of_mem c hx)
    simp only [List.cons_append, countOcc, List.append_eq]
    rw [ih ha2]
    simp [isPre_semi_cons_false p c (a ++ t) hc]

theorem isPre_boundary (p : List Char) (hp : noSemiL p) :
    ∀ (c : List Char), noSemiL c →
      ∀ (t : List Char), (t = [] ∨ ∃ t2, t = ';' :: t2) →
        isPre p (c ++ t) = isPre p c := by
  induction p with
  | nil => intro c _ t _; rfl
  | cons x p ih =>
    intro c hc t ht
    have hx : ¬(x = ';') := hp x (List.mem_cons_self x p)
    have hp2 : noSemiL p := fun y hy => hp y (List.mem_cons_of_mem x hy)
    cases c with
    | nil =>
      rcases ht with rfl | ⟨t2, rfl⟩
      · rfl
      · simp only [List.nil_append]
        rw [show isPre (x :: p) (';' :: t2) = false from by
          simp only [isPre, Bool.and_eq_false_iff]
          left
          simp [beq_eq_false_iff_ne, hx]]
        rfl
    | cons y c2 =>
      have hc2 : noSemiL c2 := fun z hz => hc z (List.mem_cons_of_mem y hz)
      simp only [List.cons_append, isPre, List.append_eq]
      rw [ih hp2 c2 hc2 t ht]

theorem countOcc_semijoin (p : List Char) (hp : noSemiL p) (chunks : List (List Char))
    (hch : ∀ ch ∈ chunks, noSemiL ch) (head : List Char) (hh : noSemiL head) :
    countOcc (';' :: p) (head ++ (chunks.map (fun ch => ';' :: ch)).flatten) =
      (chunks.filter (fun ch => isPre p ch)).length := by
  induction chunks generalizing head with
  | nil =>
    rw [countOcc_skip_no_semi p head _ hh]
    rfl
  | cons ch chunks ih =>
    have hch1 : noSemiL ch := hch ch (List.mem_cons_self ch chunks)
    have hch2 : ∀ x ∈ chunks, noSemiL x := fun x hx => hch x (List.mem_cons_of_mem ch hx)
    have hbound : (chunks.map (fun c2 => ';' :: c2)).flatten = [] ∨
        ∃ t2, (chunks.map (fun c2 => ';' :: c2)).flatten = ';' :: t2 := by
      cases chunks with
      | nil => exact Or.inl rfl
      | cons a b => exact Or.inr ⟨a ++ (b.map (fun c2 => ';' :: c2)).flatten, by simp⟩
    rw [countOcc_skip_no_semi p head _ hh]
    simp only [List.map_cons, List.flatten_cons, List.cons_append, countOcc, List.append_eq]
    have hpre0 : isPre (';' :: p) (';' :: (ch ++ (chunks.map (fun c2 => ';' :: c2)).flatten)) =
        isPre p (ch ++ (chunks.map (fun c2 => ';' :: c2)).flatten) := by
      simp [isPre]
    simp only [hpre0, isPre_boundary p hp ch hch1 _ hbound]
    rw [countOcc_skip_no_semi p ch _ hch1]
    have ihz := ih hch2 [] (by intro x hx; cases hx)
    simp only [List.nil_append] at ihz
    rw [ihz, List.filter_cons]
    cases hpre : isPre p ch
    · simp
    · simp [Nat.add_comm]

theorem isPre_append_of_nonpre (p : List Char) :
    ∀ x E : List Char, isPre p x = false → isPre x p = false → isPre p (x ++ E) = false := by
  induction p with
  | nil => intro x E h1 _; cases h1
  | cons a p ih =>
    intro x E h1 h2
    cases x with
    | nil => cases h2
    | cons b x2 =>
      simp only [List.cons_append, isPre, Bool.and_eq_false_iff] at h1 h2 ⊢
      by_cases hab : a = b
      · subst hab
        rcases h1 with h1 | h1
        · simp [beq_self_eq_true] at h1
        · rcases h2 with h2 | h2
          · simp [beq_self_eq_true] at h2
          · exact Or.inr (ih x2 E h1 h2)
      · left
        simp [beq_eq_false_iff_ne, hab]

theorem attrsTail_chunks (c : Cookie) :
    (Cookie.attrsTail c).data =
      (((if c._path ≠ "" then [(" path=").data ++ c._path.data] else []) ++
        (if c._domain ≠ "" then [(" domain=").data ++ c._domain.data] else []) ++
        (if c._secure then [(" secure").data] else []) ++
        (if c._httpOnly then [(" httponly").data] else []) ++
        (if c._sameSite ≠ SameSite.NONE then
          [(" samesite=").data ++ (c._sameSite.valueOf).data] else [])).map
        (fun ch => ';' :: ch)).flatten := by
  have e1 : ("; path=" : String).data = ';' :: (" path=" : String).data := rfl
  have e2 : ("; domain=" : String).data = ';' :: (" domain=" : String).data := rfl
  have e3 : ("; secure" : String).data = ';' :: (" secure" : String).data := rfl
  have e4 : ("; httponly" : String).data = ';' :: (" httponly" : String).data := rfl
  have e5 : ("; samesite=" : String).data = ';' :: (" samesite=" : String).data := rfl
  unfold Cookie.attrsTail
  by_cases h1 : c._path ≠ "" <;> by_cases h2 : c._domain ≠ "" <;>
    by_cases h3 : c._secure = true <;> by_cases h4 : c._httpOnly = true <;>
    by_cases h5 : c._sameSite ≠ SameSite.NONE <;>
    simp [h1, h2, h3, h4, h5, String.data_append, e1, e2, e3, e4, e5]

theorem toStringAt_chunks (c : Cookie) (now : Int) (s : String) (c2 : Cookie)
    (h : c.toStringAt now = Except.ok (s, c2)) :
    s.data = outHead c ++ ((outChunks c now).map (fun ch => ';' :: ch)).flatten := by
  have e6 : ("; expires=" : String).data = ';' :: (" expires=" : String).data := rfl
  have e7 : ("; Max-Age=0" : String).data = ';' :: (" Max-Age=0" : String).data := rfl
  have e8 : ("; Max-Age=" : String).data = ';' :: (" Max-Age=" : String).data := rfl
  have e9 : ("=" : String).data = ['='] := rfl
  unfold Cookie.toStringAt at h
  simp only [] at h
  by_cases hv : c._value = ""
  · rw [if_pos hv] at h
    rcases hexp : c.expire now with ⟨c3, e⟩
    rw [hexp] at h
    unfold Cookie.expire Cookie.setExpire at hexp
    by_cases hcond : (some (subtractThirteenYears now) ≠ some 0 ∧
        dayjsIsValid (some (subtractThirteenYears now)) = false)
    · rw [if_pos hcond] at hexp
      simp only [Prod.mk.injEq] at hexp
      obtain ⟨_, he⟩ := hexp
      rw [← he] at h
      exact absurd h (by simp)
    · rw [if_neg hcond] at hexp
      simp only [Prod.mk.injEq] at hexp
      obtain ⟨hc3, he⟩ := hexp
      rw [← he] at h
      simp only [Except.ok.injEq, Prod.mk.injEq] at h
      obtain ⟨hs, _⟩ := h
      rw [← hs]
      unfold outHead outChunks
      rw [if_pos hv, if_pos hv]
      rw [← hc3]
      simp only [String.data_append, attrsTail_chunks, e6, e7, e9]
      have hfield : ({ c with _expiresAt := subtractThirteenYears now } : Cookie)._path =
          c._path := rfl
      have hfield2 : ({ c with _expiresAt := subtractThirteenYears now } : Cookie)._domain =
          c._domain := rfl
      have hfield3 : ({ c with _expiresAt := subtractThirteenYears now } : Cookie)._secure =
          c._secure := rfl
      have hfield4 : ({ c with _expiresAt := subtractThirteenYears now } : Cookie)._httpOnly =
          c._httpOnly := rfl
      have hfield5 : ({ c with _expiresAt := subtractThirteenYears now } : Cookie)._sameSite =
          c._sameSite := rfl
      have hfield6 : ({ c with _expiresAt := subtractThirteenYears now } : Cookie)._expiresAt =
          subtractThirteenYears now := rfl
      simp [hfield, hfield2, hfield3, hfield4, hfield5, hfield6, List.append_assoc]
  · rw [if_neg hv] at h
    simp only [Except.ok.injEq, Prod.mk.injEq] at h
    obtain ⟨hs, _⟩ := h
    rw [← hs]
    unfold outHead outChunks
    rw [if_neg hv, if_neg hv]
    by_cases hexp0 : c._expiresAt ≠ 0
    · rw [if_pos hexp0, if_pos hexp0]
      simp [String.data_append, attrsTail_chunks, e6, e8, e9, intToString,
        List.append_assoc]
    · rw [if_neg hexp0, if_neg hexp0]
      simp [String.data_append, attrsTail_chunks, e8, e9, intToString, List.append_assoc]

theorem mem_ite_singleton (P : Prop) [Decidable P] (x ch : List Char)
    (h : ch ∈ (if P then [x] else [])) : ch = x := by
  split at h
  · simpa using h
  · simp at h

theorem valueOf_no_semi (ss : SameSite) : noSemiL (ss.valueOf).data := by
  cases ss <;> decide

theorem outChunks_no_semi (c : Cookie) (now : Int)
    (hpath : noSemiL c._path.data) (hdomain : noSemiL c._domain.data) :
    ∀ ch ∈ outChunks c now, noSemiL ch := by
  intro ch hch
  unfold outChunks at hch
  simp only [List.mem_append] at hch
  rcases hch with ((((hch | hch) | hch) | hch) | hch) | hch
  · split at hch
    · rcases List.mem_cons.mp hch with rfl | hch2
      · exact noSemiL_append _ _ (by decide) (responseFormat_no_semi _)
      · rcases List.mem_cons.mp hch2 with rfl | hch3
        · decide
        · simp at hch3
    · rcases List.mem_append.mp hch with hch2 | hch2
      · have := mem_ite_singleton _ _ _ hch2
        subst this
        exact noSemiL_append _ _ (by decide) (responseFormat_no_semi _)
      · rcases List.mem_cons.mp hch2 with rfl | hch3
        · exact noSemiL_append _ _ (by decide) (intToChars_no_semi _)
        · simp at hch3
  · have := mem_ite_singleton _ _ _ hch
    subst this
    exact noSemiL_append _ _ (by decide) hpath
  · have := mem_ite_singleton _ _ _ hch
    subst this
    exact noSemiL_append _ _ (by decide) hdomain
  · have := mem_ite_singleton _ _ _ hch
    subst this
    decide
  · have := mem_ite_singleton _ _ _ hch
    subst this
    decide
  · have := mem_ite_singleton _ _ _ hch
    subst this
    exact noSemiL_append _ _ (by decide) (valueOf_no_semi _)

theorem outHead_no_semi (c : Cookie)
    (hname : noSemiL (c.rawIfNeededOf c._name).data)
    (hvalue : noSemiL (c.rawIfNeededOf c._value).data) :
    noSemiL (outHead c) := by
  unfold outHead
  refine noSemiL_append _ _ hname ?_
  intro x hx
  rcases List.mem_cons.mp hx with rfl | hx2
  · decide
  · split at hx2
    · simp at hx2
    · exact hvalue x hx2

theorem countOcc_toString (c : Cookie) (now : Int) (s : String) (c2 : Cookie)
    (h : c.toStringAt now = Except.ok (s, c2))
    (hname : noSemiL (c.rawIfNeededOf c._name).data)
    (hvalue : noSemiL (c.rawIfNeededOf c._value).data)
    (hpath : noSemiL c._path.data) (hdomain : noSemiL c._domain.data)
    (p : List Char) (hp : noSemiL p) :
    countOcc (';' :: p) s.data =
      ((outChunks c now).filter (fun ch => isPre p ch)).length := by
  rw [toStringAt_chunks c now s c2 h]
  exact countOcc_semijoin p hp _ (outChunks_no_semi c now hpath hdomain) _
    (outHead_no_semi c hname hvalue)

theorem mem_ite_singleton2 (P : Prop) [Decidable P] (x ch : List Char)
    (h : ch ∈ (if P then [x] else [])) : P ∧ ch = x := by
  split at h
  · next hP => exact ⟨hP, by simpa using h⟩
  · simp at h

theorem outChunks_cases (c : Cookie) (now : Int) (ch : List Char)
    (hch : ch ∈ outChunks c now) :
    (∃ E, ch = (" expires=").data ++ E) ∨
    (∃ E, ch = (" Max-Age=").data ++ E) ∨
    ch = (" Max-Age=0").data ∨
    (¬(c._path = "") ∧ ch = (" path=").data ++ c._path.data) ∨
    (¬(c._domain = "") ∧ ch = (" domain=").data ++ c._domain.data) ∨
    (c._secure = true ∧ ch = (" secure").data) ∨
    (c._httpOnly = true ∧ ch = (" httponly").data) ∨
    (¬(c._sameSite = SameSite.NONE) ∧ ∃ E, ch = (" samesite=").data ++ E) := by
  unfold outChunks at hch
  simp only [List.mem_append] at hch
  rcases hch with ((((hch | hch) | hch) | hch) | hch) | hch
  · split at hch
    · rcases List.mem_cons.mp hch with rfl | hch2
      · exact Or.inl ⟨_, rfl⟩
      · rcases List.mem_cons.mp hch2 with rfl | hch3
        · exact Or.inr (Or.inr (Or.inl rfl))
        · simp at hch3
    · rcases List.mem_append.mp hch with hch2 | hch2
      · obtain ⟨_, rfl⟩ := mem_ite_singleton2 _ _ _ hch2
        exact Or.inl ⟨_, rfl⟩
      · rcases List.mem_cons.mp hch2 with rfl | hch3
        · exact Or.inr (Or.inl ⟨_, rfl⟩)
        · simp at hch3
  · obtain ⟨hcnd, rfl⟩ := mem_ite_singleton2 _ _ _ hch
    exact Or.inr (Or.inr (Or.inr (Or.inl ⟨hcnd, rfl⟩)))
  · obtain ⟨hcnd, rfl⟩ := mem_ite_singleton2 _ _ _ hch
    exact Or.inr (Or.inr (Or.inr (Or.inr (Or.inl ⟨hcnd, rfl⟩))))
  · obtain ⟨hcnd, rfl⟩ := mem_ite_singleton2 _ _ _ hch
    exact Or.inr (Or.inr (Or.inr (Or.inr (Or.inr (Or.inl ⟨hcnd, rfl⟩)))))
  · obtain ⟨hcnd, rfl⟩ := mem_ite_singleton2 _ _ _ hch
    exact Or.inr (Or.inr (Or.inr (Or.inr (Or.inr (Or.inr (Or.inl ⟨hcnd, rfl⟩))))))
  · obtain ⟨hcnd, rfl⟩ := mem_ite_singleton2 _ _ _ hch
    exact Or.inr (Or.inr (Or.inr (Or.inr (Or.inr (Or.inr (Or.inr ⟨hcnd, _, rfl⟩))))))

theorem countOcc_toString_zero (c : Cookie) (now : Int) (s : String) (c2 : Cookie)
    (h : c.toStringAt now = Except.ok (s, c2))
    (hname : noSemiL (c.rawIfNeededOf c._name).data)
    (hvalue : noSemiL (c.rawIfNeededOf c._value).data)
    (hpath : noSemiL c._path.data) (hdomain : noSemiL c._domain.data)
    (p : List Char) (hp : noSemiL p)
    (hz : ∀ ch ∈ outChunks c now, isPre p ch = false) :
    countOcc (';' :: p) s.data = 0 := by
  rw [countOcc_toString c now s c2 h hname hvalue hpath hdomain p hp]
  have hnil : (outChunks c now).filter (fun ch => isPre p ch) = [] := by
    rw [List.filter_eq_nil_iff]
    intro ch hch
    simp [hz ch hch]
  rw [hnil]
  rfl

/-- C6 (amended): for a cookie with `path="/app"`, `domain="example.com"`,
`secure`, `httpOnly`, `sameSite=Strict` and a non-empty value, the
serialized string contains exactly one occurrence of each attribute
text, in source order, provided the serialized name and value contain
no `;`; and, for every cookie whose serialized name, value, path and
domain contain no `;`, an attribute left at its default-omit value
contributes no occurrence of its attribute text. -/
theorem toString_attribute_emission :
    (∀ (c : Cookie) (now : Int) (s : String) (c2 : Cookie),
      c.toStringAt now = Except.ok (s, c2) →
      c._value ≠ "" → c._path = "/app" → c._domain = "example.com" →
      c._secure = true → c._httpOnly = true → c._sameSite = SameSite.STRICT →
      noSemiL (c.rawIfNeededOf c._name).data → noSemiL (c.rawIfNeededOf c._value).data →
      (countOcc (("; path=/app").data) s.data = 1 ∧
       countOcc (("; domain=example.com").data) s.data = 1 ∧
       countOcc (("; secure").data) s.data = 1 ∧
       countOcc (("; httponly").data) s.data = 1 ∧
       countOcc (("; samesite=strict").data) s.data = 1) ∧
      (∃ s0, s.data = s0 ++ ("; path=/app").data ++ ("; domain=example.com").data ++
        ("; secure").data ++ ("; httponly").data ++ ("; samesite=strict").data)) ∧
    (∀ (c : Cookie) (now : Int) (s : String) (c2 : Cookie),
      c.toStringAt now = Except.ok (s, c2) →
      noSemiL (c.rawIfNeededOf c._name).data → noSemiL (c.rawIfNeededOf c._value).data →
      noSemiL c._path.data → noSemiL c._domain.data →
      (c._path = "" → countOcc (("; path=").data) s.data = 0) ∧
      (c._domain = "" → countOcc (("; domain=").data) s.data = 0) ∧
      (c._secure = false → countOcc (("; secure").data) s.data = 0) ∧
      (c._httpOnly = false → countOcc (("; httponly").data) s.data = 0) ∧
      (c._sameSite = SameSite.NONE → countOcc (("; samesite=").data) s.data = 0)) := by
  constructor
  · intro c now s c2 h hv hpath hdom hsec hhttp hss hname hvalue
    have hpathns : noSemiL c._path.data := by rw [hpath]; decide
    have hdomns : noSemiL c._domain.data := by rw [hdom]; decide
    have hcount := countOcc_toString c now s c2 h hname hvalue hpathns hdomns
    by_cases hexp : c._expiresAt = 0
    case pos =>
      have hchunks : outChunks c now =
          [(" Max-Age=").data ++ (intToString (c.getMaxAge now)).data,
           (" path=").data ++ ("/app").data,
           (" domain=").data ++ ("example.com").data,
           (" secure").data, (" httponly").data,
           (" samesite=").data ++ ("strict").data] := by
        simp +decide [outChunks, hv, hpath, hdom, hsec, hhttp, hss, hexp, SameSite.valueOf]
      refine ⟨⟨?_, ?_, ?_, ?_, ?_⟩, ?_⟩
      · have hB : ∀ E, isPre ((" path=/app").data) ((" Max-Age=").data ++ E) = false :=
          fun E => isPre_append_of_nonpre _ _ E (by decide) (by decide)
        rw [show ("; path=/app").data = ';' :: (" path=/app").data from rfl,
          hcount (" path=/app").data (by decide), hchunks]
        simp at hB
        simp +decide [List.filter_cons, hB]
      · have hB : ∀ E, isPre ((" domain=example.com").data) ((" Max-Age=").data ++ E) = false :=
          fun E => isPre_append_of_nonpre _ _ E (by decide) (by decide)
        rw [show ("; domain=example.com").data = ';' :: (" domain=example.com").data from rfl,
          hcount (" domain=example.com").data (by decide), hchunks]
        simp at hB
        simp +decide [List.filter_cons, hB]
      · have hB : ∀ E, isPre ((" secure").data) ((" Max-Age=").data ++ E) = false :=
          fun E => isPre_append_of_nonpre _ _ E (by decide) (by decide)
        rw [show ("; secure").data = ';' :: (" secure").data from rfl,
          hcount (" secure").data (by decide), hchunks]
        simp at hB
        simp +decide [List.filter_cons, hB]
      · have hB : ∀ E, isPre ((" httponly").data) ((" Max-Age=").data ++ E) = false :=
          fun E => isPre_append_of_nonpre _ _ E (by decide) (by decide)
        rw [show ("; httponly").data = ';' :: (" httponly").data from rfl,
          hcount (" httponly").data (by decide), hchunks]
        simp at hB
        simp +decide [List.filter_cons, hB]
      · have hB : ∀ E, isPre ((" samesite=strict").data) ((" Max-Age=").data ++ E) = false :=
          fun E => isPre_append_of_nonpre _ _ E (by decide) (by decide)
        rw [show ("; samesite=strict").data = ';' :: (" samesite=strict").data from rfl,
          hcount (" samesite=strict").data (by decide), hchunks]
        simp at hB
        simp +decide [List.filter_cons, hB]
      · have hL1 : (" path=").data ++ ("/app").data = (" path=/app").data := rfl
        have hL2 : (" domain=").data ++ ("example.com").data = (" domain=example.com").data := rfl
        have hL3 : (" samesite=").data ++ ("strict").data = (" samesite=strict").data := rfl
        have hM1 : ("; path=/app").data = ';' :: (" path=/app").data := rfl
        have hM2 : ("; domain=example.com").data = ';' :: (" domain=example.com").data := rfl
        have hM3 : ("; secure").data = ';' :: (" secure").data := rfl
        have hM4 : ("; httponly").data = ';' :: (" httponly").data := rfl
        have hM5 : ("; samesite=strict").data = ';' :: (" samesite=strict").data := rfl
        refine ⟨outHead c ++ (';' :: ((" Max-Age=").data ++ (intToString (c.getMaxAge now)).data)), ?_⟩
        rw [toStringAt_chunks c now s c2 h, hchunks]
        simp [hL1, hL2, hL3, hM1, hM2, hM3, hM4, hM5, List.append_assoc]
    case neg =>
      have hchunks : outChunks c now =
          [(" expires=").data ++ (responseFormat c._expiresAt).data,
           (" Max-Age=").data ++ (intToString (c.getMaxAge now)).data,
           (" path=").data ++ ("/app").data,
           (" domain=").data ++ ("example.com").data,
           (" secure").data, (" httponly").data,
           (" samesite=").data ++ ("strict").data] := by
        simp +decide [outChunks, hv, hpath, hdom, hsec, hhttp, hss, hexp, SameSite.valueOf]
      refine ⟨⟨?_, ?_, ?_, ?_, ?_⟩, ?_⟩
      · have hB : ∀ E, isPre ((" path=/app").data) ((" Max-Age=").data ++ E) = false :=
          fun E => isPre_append_of_nonpre _ _ E (by decide) (by decide)
        have hA : ∀ E, isPre ((" path=/app").data) ((" expires=").data ++ E) = false :=
          fun E => isPre_append_of_nonpre _ _ E (by decide) (by decide)
        rw [show ("; path=/app").data = ';' :: (" path=/app").data from rfl,
          hcount (" path=/app").data (by decide), hchunks]
        simp at hA hB
        simp +decide [List.filter_cons, hA, hB]
      · have hB : ∀ E, isPre ((" domain=example.com").data) ((" Max-Age=").data ++ E) = false :=
          fun E => isPre_append_of_nonpre _ _ E (by decide) (by decide)
        have hA : ∀ E, isPre ((" domain=example.com").data) ((" expires=").data ++ E) = false :=
          fun E => isPre_append_of_nonpre _ _ E (by decide) (by decide)
        rw [show ("; domain=example.com").data = ';' :: (" domain=example.com").data from rfl,
          hcount (" domain=example.com").data (by decide), hchunks]
        simp at hA hB
        simp +decide [List.filter_cons, hA, hB]
      · have hB : ∀ E, isPre ((" secure").data) ((" Max-Age=").data ++ E) = false :=
          fun E => isPre_append_of_nonpre _ _ E (by decide) (by decide)
        have hA : ∀ E, isPre ((" secure").data) ((" expires=").data ++ E) = false :=
          fun E => isPre_append_of_nonpre _ _ E (by decide) (by decide)
        rw [show ("; secure").data = ';' :: (" secure").data from rfl,
          hcount (" secure").data (by decide), hchunks]
        simp at hA hB
        simp +decide [List.filter_cons, hA, hB]
      · have hB : ∀ E, isPre ((" httponly").data) ((" Max-Age=").data ++ E) = false :=
          fun E => isPre_append_of_nonpre _ _ E (by decide) (by decide)
        have hA : ∀ E, isPre ((" httponly").data) ((" expires=").data ++ E) = false :=
          fun E => isPre_append_of_nonpre _ _ E (by decide) (by decide)
        rw [show ("; httponly").data = ';' :: (" httponly").data from rfl,
          hcount (" httponly").data (by decide), hchunks]
        simp at hA hB
        simp +decide [List.filter_cons, hA, hB]
      · have hB : ∀ E, isPre ((" samesite=strict").data) ((" Max-Age=").data ++ E) = false :=
          fun E => isPre_append_of_nonpre _ _ E (by decide) (by decide)
        have hA : ∀ E, isPre ((" samesite=strict").data) ((" expires=").data ++ E) = false :=
          fun E => isPre_append_of_nonpre _ _ E (by decide) (by decide)
        rw [show ("; samesite=strict").data = ';' :: (" samesite=strict").data from rfl,
          hcount (" samesite=strict").data (by decide), hchunks]
        simp at hA hB
        simp +decide [List.filter_cons, hA, hB]
      · have hL1 : (" path=").data ++ ("/app").data = (" path=/app").data := rfl
        have hL2 : (" domain=").data ++ ("example.com").data = (" domain=example.com").data := rfl
        have hL3 : (" samesite=").data ++ ("strict").data = (" samesite=strict").data := rfl
        have hM1 : ("; path=/app").data = ';' :: (" path=/app").data := rfl
        have hM2 : ("; domain=example.com").data = ';' :: (" domain=example.com").data := rfl
        have hM3 : ("; secure").data = ';' :: (" secure").data := rfl
        have hM4 : ("; httponly").data = ';' :: (" httponly").data := rfl
        have hM5 : ("; samesite=strict").data = ';' :: (" samesite=strict").data := rfl
        refine ⟨outHead c ++ (';' :: ((" expires=").data ++ (responseFormat c._expiresAt).data)) ++
            (';' :: ((" Max-Age=").data ++ (intToString (c.getMaxAge now)).data)), ?_⟩
        rw [toStringAt_chunks c now s c2 h, hchunks]
        simp [hL1, hL2, hL3, hM1, hM2, hM3, hM4, hM5, List.append_assoc]
  · intro c now s c2 h hname hvalue hpathns hdomns
    refine ⟨?_, ?_, ?_, ?_, ?_⟩
    · intro hz0
      rw [show ("; path=").data = ';' :: (" path=").data from rfl]
      refine countOcc_toString_zero c now s c2 h hname hvalue hpathns hdomns _ (by decide) ?_
      intro ch hch
      rcases outChunks_cases c now ch hch with ⟨E, rfl⟩ | ⟨E, rfl⟩ | rfl | ⟨hcnd, rfl⟩ |
        ⟨hcnd, rfl⟩ | ⟨hcnd, rfl⟩ | ⟨hcnd, rfl⟩ | ⟨hcnd, E, rfl⟩ <;>
        first
          | exact isPre_append_of_nonpre _ _ _ (by decide) (by decide)
          | decide
          | exact absurd hz0 hcnd
          | exact absurd hcnd (by simp [hz0])
    · intro hz0
      rw [show ("; domain=").data = ';' :: (" domain=").data from rfl]
      refine countOcc_toString_zero c now s c2 h hname hvalue hpathns hdomns _ (by decide) ?_
      intro ch hch
      rcases outChunks_cases c now ch hch with ⟨E, rfl⟩ | ⟨E, rfl⟩ | rfl | ⟨hcnd, rfl⟩ |
        ⟨hcnd, rfl⟩ | ⟨hcnd, rfl⟩ | ⟨hcnd, rfl⟩ | ⟨hcnd, E, rfl⟩ <;>
        first
          | exact isPre_append_of_nonpre _ _ _ (by decide) (by decide)
          | decide
          | exact absurd hz0 hcnd
          | exact absurd hcnd (by simp [hz0])
    · intro hz0
      rw [show ("; secure").data = ';' :: (" secure").data from rfl]
      refine countOcc_toString_zero c now s c2 h hname hvalue hpathns hdomns _ (by decide) ?_
      intro ch hch
      rcases outChunks_cases c now ch hch with ⟨E, rfl⟩ | ⟨E, rfl⟩ | rfl | ⟨hcnd, rfl⟩ |
        ⟨hcnd, rfl⟩ | ⟨hcnd, rfl⟩ | ⟨hcnd, rfl⟩ | ⟨hcnd, E, rfl⟩ <;>
        first
          | exact isPre_append_of_nonpre _ _ _ (by decide) (by decide)
          | decide
          | exact absurd hz0 hcnd
          | exact absurd hcnd (by simp [hz0])
    · intro hz0
      rw [show ("; httponly").data = ';' :: (" httponly").data from rfl]
      refine countOcc_toString_zero c now s c2 h hname hvalue hpathns hdomns _ (by decide) ?_
      intro ch hch
      rcases outChunks_cases c now ch hch with ⟨E, rfl⟩ | ⟨E, rfl⟩ | rfl | ⟨hcnd, rfl⟩ |
        ⟨hcnd, rfl⟩ | ⟨hcnd, rfl⟩ | ⟨hcnd, rfl⟩ | ⟨hcnd, E, rfl⟩ <;>
        first
          | exact isPre_append_of_nonpre _ _ _ (by decide) (by decide)
          | decide
          | exact absurd hz0 hcnd
          | exact absurd hcnd (by simp [hz0])
    · intro hz0
      rw [show ("; samesite=").data = ';' :: (" samesite=").data from rfl]
      refine countOcc_toString_zero c now s c2 h hname hvalue hpathns hdomns _ (by decide) ?_
      intro ch hch
      rcases outChunks_cases c now ch hch with ⟨E, rfl⟩ | ⟨E, rfl⟩ | rfl | ⟨hcnd, rfl⟩ |
        ⟨hcnd, rfl⟩ | ⟨hcnd, rfl⟩ | ⟨hcnd, rfl⟩ | ⟨hcnd, E, rfl⟩ <;>
        first
          | exact isPre_append_of_nonpre _ _ _ (by decide) (by decide)
          | decide
          | exact absurd hz0 hcnd
          | exact absurd hcnd (by simp [hz0])

/-- C6 counterexample: with `raw=true` the value is emitted verbatim, so
a value containing the text `"; secure"` makes the serialized cookie
contain two occurrences of `"; secure"`, not exactly one. -/
theorem toString_attribute_emission_counterexample :
    (Cookie.mk "k" "v; secure" 0 "/app" "example.com" true true true
        SameSite.STRICT).toStringAt 0 =
      Except.ok
        ("k=v; secure; Max-Age=0; path=/app; domain=example.com; secure; httponly; samesite=strict",
         Cookie.mk "k" "v; secure" 0 "/app" "example.com" true true true SameSite.STRICT) ∧
    countOcc (("; secure").data)
      ("k=v; secure; Max-Age=0; path=/app; domain=example.com; secure; httponly; samesite=strict").data
      = 2 := by
  constructor
  · rfl
  · decide

theorem toString_attribute_emission_check :
    (countOcc (("; path=/app").data)
        ("k=v; Max-Age=0; path=/app; domain=example.com; secure; httponly; samesite=strict").data
        = 1 ∧
     countOcc (("; domain=example.com").data)
        ("k=v; Max-Age=0; path=/app; domain=example.com; secure; httponly; samesite=strict").data
        = 1 ∧
     countOcc (("; secure").data)
        ("k=v; Max-Age=0; path=/app; domain=example.com; secure; httponly; samesite=strict").data
        = 1 ∧
     countOcc (("; httponly").data)
        ("k=v; Max-Age=0; path=/app; domain=example.com; secure; httponly; samesite=strict").data
        = 1 ∧
     countOcc (("; samesite=strict").data)
        ("k=v; Max-Age=0; path=/app; domain=example.com; secure; httponly; samesite=strict").data
        = 1) ∧
    (∃ s0,
      ("k=v; Max-Age=0; path=/app; domain=example.com; secure; httponly; samesite=strict").data =
        s0 ++ ("; path=/app").data ++ ("; domain=example.com").data ++ ("; secure").data ++
          ("; httponly").data ++ ("; samesite=strict").data) :=
  toString_attribute_emission.1
    (Cookie.mk "k" "v" 0 "/app" "example.com" true true true SameSite.STRICT) 0
    "k=v; Max-Age=0; path=/app; domain=example.com; secure; httponly; samesite=strict"
    (Cookie.mk "k" "v" 0 "/app" "example.com" true true true SameSite.STRICT)
    (by rfl) (by decide) rfl rfl rfl rfl rfl (by decide) (by decide)
